import Mathlib

/-!
Verification development for the `ansible-later` YAML helper and standard
modules (`ansiblelater/utils/yamlhelper.py`, `ansiblelater/standard.py`).

Python values are embedded as the inductive type `Val`; Python dictionaries
are embedded as insertion-ordered association lists (`AList`), matching the
semantics of `dict` (lookup by key, in-place value replacement on
re-assignment, appending for fresh keys, ordered iteration).  Filesystem
state is an abstract pair of predicates (`pathExists`, `isDir`), and
fallible Python code is embedded in the `Except` monad.
-/

namespace AnsibleLater

/-- A Python/YAML value: `None`, booleans, integers, strings, lists and
string-keyed dictionaries (the shapes produced by the YAML loader). -/
inductive Val where
  | vnull : Val
  | vbool : Bool → Val
  | vint : Int → Val
  | vstr : String → Val
  | vlist : List Val → Val
  | vmap : List (String × Val) → Val

mutual

/-- Python `==` on embedded values (used by the `in` operator on lists). -/
def Val.eqb : Val → Val → Bool
  | .vnull, .vnull => true
  | .vbool a, .vbool b => a == b
  | .vint a, .vint b => a == b
  | .vstr a, .vstr b => a == b
  | .vlist a, .vlist b => Val.eqbList a b
  | .vmap a, .vmap b => Val.eqbPairs a b
  | _, _ => false

/-- Elementwise `Val.eqb` on lists. -/
def Val.eqbList : List Val → List Val → Bool
  | [], [] => true
  | x :: xs, y :: ys => Val.eqb x y && Val.eqbList xs ys
  | _, _ => false

/-- Elementwise `Val.eqb` on dictionary bindings. -/
def Val.eqbPairs : List (String × Val) → List (String × Val) → Bool
  | [], [] => true
  | (k, v) :: xs, (l, w) :: ys => k == l && Val.eqb v w && Val.eqbPairs xs ys
  | _, _ => false

end

/-- A Python dictionary with string keys, as an insertion-ordered list. -/
abbrev AList := List (String × Val)

/-!
### Character-level string helpers

Lean's `String` primitives (`splitOn`, `replace`, `trim`, `startsWith`, …)
are opaque to kernel reduction, so the Python string operations used by the
code are modelled directly on the underlying character lists.
-/

/-- Whitespace, as recognised by Python's `strip`/`split`. -/
def chIsWs (c : Char) : Bool := c == ' ' || c == '\t' || c == '\n' || c == '\r'

/-- Python `str.lstrip()`. -/
def pyLStrip (s : String) : String := ⟨s.data.dropWhile chIsWs⟩

/-- Python `str.strip()`. -/
def pyStrip (s : String) : String :=
  ⟨((s.data.dropWhile chIsWs).reverse.dropWhile chIsWs).reverse⟩

/-- Split a character list at every separator, keeping empty groups
(Python `str.split(sep)` semantics). -/
def splitCharListBy (sep : Char → Bool) : List Char → List (List Char)
  | [] => [[]]
  | c :: rest =>
    let r := splitCharListBy sep rest
    if sep c then [] :: r
    else
      match r with
      | [] => [[c]]
      | g :: gs => (c :: g) :: gs

/-- Python `s.split(" ")`. -/
def pySplitSpace (s : String) : List String :=
  (splitCharListBy (· == ' ') s.data).map fun l => ⟨l⟩

/-- Python `s.split()`: split on whitespace runs, dropping empty groups. -/
def pySplitWs (s : String) : List String :=
  ((splitCharListBy chIsWs s.data).filter (· ≠ [])).map fun l => ⟨l⟩

/-- Python `"=" in arg` (and similar single-character membership). -/
def strHasChar (s : String) (c : Char) : Bool := s.data.contains c

/-- First-occurrence split, for Python `arg.split("=", 1)`; `none` when the
character does not occur (callers only split after a membership test). -/
def splitCharOnce (c : Char) : List Char → Option (List Char × List Char)
  | [] => none
  | d :: rest =>
    if d == c then some ([], rest)
    else (splitCharOnce c rest).map fun p => (d :: p.1, p.2)

/-- Python `arg.split("=", 1)` as a pair (`(arg, "")` when no `=`). -/
def pySplitEqOnce (s : String) : String × String :=
  match splitCharOnce '=' s.data with
  | some (a, b) => (⟨a⟩, ⟨b⟩)
  | none => (s, "")

/-- Python `token.replace(":", "")`: remove every colon. -/
def stripColons (s : String) : String :=
  ⟨s.data.filter (fun c => !(c == ':'))⟩

/-- Substring search on character lists. -/
def subSearch (sub : List Char) : List Char → Bool
  | [] => sub.isEmpty
  | c :: rest => sub.isPrefixOf (c :: rest) || subSearch sub rest

/-- Python `sub in s` on strings (substring containment). -/
def strContainsSub (s sub : String) : Bool := subSearch sub.data s.data

/-- Python `os.path.isabs`-style check used by the path-join model. -/
def strIsAbs (s : String) : Bool :=
  match s.data with
  | c :: _ => c == '/'
  | [] => false

/-- Python `s.endswith(t)`. -/
def strEndsWith (s t : String) : Bool := t.data.isSuffixOf s.data

/-- The keys of a dictionary, in insertion order. -/
def keysOf (m : AList) : List String := m.map Prod.fst

/-- `m.get(q)`: value of the first binding of `q`, if any. -/
def getKey : AList → String → Option Val
  | [], _ => none
  | p :: rest, q => if p.1 = q then some p.2 else getKey rest q

/-- `q in m` for a dictionary: key membership. -/
def hasKey (m : AList) (q : String) : Bool := (getKey m q).isSome

/-- `m[q] = v`: replace the value of an existing binding in place, otherwise
append a new binding (Python dict assignment preserves insertion order). -/
def setKey (m : AList) (q : String) (v : Val) : AList :=
  if hasKey m q then m.map (fun p => if p.1 = q then (q, v) else p)
  else m ++ [(q, v)]

/-- `m.pop(q, None)` / `del m[q]`: remove the binding of `q`.  Python
dictionaries never hold duplicate keys, so removing every binding of `q`
agrees with removing the one binding. -/
def popKey (m : AList) (q : String) : AList := m.filter (fun p => p.1 ≠ q)

/-- Repeated dict assignment: `for k, v in args: m[k] = v` (also the effect
of Python's `dict.update`). -/
def updateAll (m : AList) (args : AList) : AList :=
  args.foldl (fun acc p => setKey acc p.1 p.2) m

/-- Number of bindings of a key (1 or 0 for genuine Python dictionaries). -/
def countKey (m : AList) (q : String) : Nat :=
  (m.filter (fun p => p.1 = q)).length

/-- Python truthiness: `None`, `False`, `0`, `""`, `[]`, and the empty dict
are falsy, everything else is truthy. -/
def Val.truthy : Val → Bool
  | .vnull => false
  | .vbool b => b
  | .vint i => i != 0
  | .vstr s => !s.data.isEmpty
  | .vlist l => !l.isEmpty
  | .vmap m => !m.isEmpty

/-- `str(v)` as used by string formatting.  Exact for the scalar values the
analysed code formats; container reprs are abbreviated placeholders (no
claim depends on them). -/
def pyStr : Val → String
  | .vnull => "None"
  | .vbool true => "True"
  | .vbool false => "False"
  | .vint i => toString i
  | .vstr s => s
  | .vlist _ => "<list>"
  | .vmap _ => "<dict>"

/-- The Python exceptions the embedded code can raise. -/
inductive Err where
  /-- `TypeError` (wrong-arity call, unsupported operand type, …). -/
  | typeError : Err
  /-- `KeyError` on a missing dictionary key. -/
  | keyError : Err
  /-- `SystemExit` raised for a malformed role reference. -/
  | roleDictError : Err
  /-- `RuntimeError` for a non-list, non-null `block`/`rescue`/`always`. -/
  | structuralError : Err
  /-- `LaterAnsibleError`: the module-argument grammar rejected the task. -/
  | grammarError : Err
  /-- Grammar: no module/action could be detected in the task. -/
  | noAction : Err
  /-- Grammar: conflicting action statements (two module keys). -/
  | conflictingAction : Err
  /-- `IndexError` on an out-of-range sequence index. -/
  | indexError : Err
deriving DecidableEq

/-- Whether an `Except` computation produced a value. -/
def exOk : Except Err α → Bool
  | .ok _ => true
  | .error _ => false

/-! ### Basic dictionary lemmas -/

@[simp]
theorem getKey_nil (q : String) : getKey [] q = none := rfl

@[simp]
theorem getKey_cons (p : String × Val) (rest : AList) (q : String) :
    getKey (p :: rest) q = if p.1 = q then some p.2 else getKey rest q := rfl

theorem hasKey_iff_getKey {m : AList} {q : String} :
    hasKey m q = true ↔ ∃ v, getKey m q = some v := by
  unfold hasKey
  cases getKey m q <;> simp

theorem hasKey_false_iff_getKey {m : AList} {q : String} :
    hasKey m q = false ↔ getKey m q = none := by
  unfold hasKey
  cases getKey m q <;> simp

@[simp]
theorem hasKey_nil (q : String) : hasKey [] q = false := rfl

theorem hasKey_cons (p : String × Val) (rest : AList) (q : String) :
    hasKey (p :: rest) q = (p.1 == q || hasKey rest q) := by
  unfold hasKey
  by_cases hp : p.1 = q <;> simp [hp]

theorem getKey_append (a b : AList) (q : String) :
    getKey (a ++ b) q = ((getKey a q).elim (getKey b q) some) := by
  induction a with
  | nil => simp
  | cons p rest ih =>
    by_cases h : p.1 = q <;> simp [h, ih]

theorem getKey_append_of_none {a : AList} {q : String}
    (h : getKey a q = none) (b : AList) : getKey (a ++ b) q = getKey b q := by
  rw [getKey_append, h]
  rfl

theorem getKey_replaceMap_self (m : AList) (q : String) (v : Val)
    (h : hasKey m q = true) :
    getKey (m.map (fun p => if p.1 = q then (q, v) else p)) q = some v := by
  induction m with
  | nil => simp at h
  | cons p rest ih =>
    by_cases hp : p.1 = q
    · simp [List.map, hp]
    · have h' : hasKey rest q = true := by
        simpa [hasKey_cons, hp] using h
      simp [List.map, hp, ih h']

theorem getKey_replaceMap_ne (m : AList) {q q' : String} (v : Val)
    (h : q' ≠ q) :
    getKey (m.map (fun p => if p.1 = q then (q, v) else p)) q' =
      getKey m q' := by
  induction m with
  | nil => simp
  | cons p rest ih =>
    by_cases hp : p.1 = q
    · have hne : p.1 ≠ q' := by rw [hp]; exact Ne.symm h
      simp [List.map, hp, Ne.symm h, hne, ih]
    · by_cases hp' : p.1 = q' <;> simp [List.map, hp, hp', h, ih]

@[simp]
theorem getKey_setKey_self (m : AList) (q : String) (v : Val) :
    getKey (setKey m q v) q = some v := by
  by_cases h : hasKey m q = true
  · simp only [setKey, h, if_true]
    exact getKey_replaceMap_self m q v h
  · have hb : hasKey m q = false := by simpa using h
    simp only [setKey, hb, Bool.false_eq_true, if_false]
    rw [getKey_append_of_none (hasKey_false_iff_getKey.mp hb)]
    simp

@[simp]
theorem getKey_setKey_ne (m : AList) {q q' : String} (v : Val) (h : q' ≠ q) :
    getKey (setKey m q v) q' = getKey m q' := by
  by_cases hk : hasKey m q = true
  · simp only [setKey, hk, if_true]
    exact getKey_replaceMap_ne m v h
  · have hb : hasKey m q = false := by simpa using hk
    simp only [setKey, hb, Bool.false_eq_true, if_false]
    cases hg : getKey m q' with
    | none => simp [getKey_append, hg, Ne.symm h]
    | some w => simp [getKey_append, hg]

@[simp]
theorem popKey_nil (q : String) : popKey [] q = [] := rfl

theorem popKey_cons (p : String × Val) (rest : AList) (q : String) :
    popKey (p :: rest) q =
      if p.1 = q then popKey rest q else p :: popKey rest q := by
  simp only [popKey, List.filter_cons]
  by_cases hp : p.1 = q <;> simp [hp]

@[simp]
theorem getKey_popKey_self (m : AList) (q : String) :
    getKey (popKey m q) q = none := by
  induction m with
  | nil => rfl
  | cons p rest ih =>
    rw [popKey_cons]
    by_cases hp : p.1 = q
    · rw [if_pos hp]; exact ih
    · rw [if_neg hp, getKey_cons, if_neg hp]; exact ih

@[simp]
theorem getKey_popKey_ne (m : AList) {q q' : String} (h : q' ≠ q) :
    getKey (popKey m q) q' = getKey m q' := by
  induction m with
  | nil => rfl
  | cons p rest ih =>
    rw [popKey_cons]
    by_cases hp : p.1 = q
    · rw [if_pos hp, ih, getKey_cons,
        if_neg (by rw [hp]; exact Ne.symm h)]
    · rw [if_neg hp, getKey_cons, getKey_cons, ih]

theorem popKey_of_not_has {m : AList} {q : String} (h : hasKey m q = false) :
    popKey m q = m := by
  induction m with
  | nil => rfl
  | cons p rest ih =>
    rw [popKey_cons]
    by_cases hp : p.1 = q
    · simp [hasKey_cons, hp] at h
    · have h' : hasKey rest q = false := by simpa [hasKey_cons, hp] using h
      rw [if_neg hp, ih h']

theorem setKey_of_not_has {m : AList} {q : String} (h : hasKey m q = false)
    (v : Val) : setKey m q v = m ++ [(q, v)] := by
  simp [setKey, h]

/-!
## `ansiblelater/standard.py`

`Standard.__init__` (lines 9–25): rewrites the `id` entry of the input
dictionary in place and then copies the entries onto the object.
-/

/-- The attributes `Standard.__init__` sets on `self`; `sid` is `self.id`. -/
structure StandardObj where
  sid : Val
  name : Val
  version : Val
  check : Val
  types : Val

/-- `Standard.__init__(standard_dict)`: if no `"id"` key is present, write
`id=""` into the dictionary; otherwise overwrite `"id"` with
`"[{}] ".format(standard_dict.get("id"))`.  Then populate the object's
attributes from the (mutated) dictionary.  Returns the object together with
the post-call state of the caller's dictionary. -/
def standardInit (standardDict : AList) : StandardObj × AList :=
  let d :=
    if ¬ hasKey standardDict "id" then setKey standardDict "id" (.vstr "")
    else
      setKey standardDict "id"
        (.vstr ("[" ++ pyStr ((getKey standardDict "id").getD .vnull) ++ "] "))
  (⟨(getKey d "id").getD .vnull, (getKey d "name").getD .vnull,
    (getKey d "version").getD .vnull, (getKey d "check").getD .vnull,
    (getKey d "types").getD .vnull⟩, d)

/-- C10: for every input dictionary, `Standard.__init__` sets the object's
id to the original id wrapped in square brackets followed by one space when
an `"id"` key is present, and to the empty string when it is absent, and it
writes that formatted value back into the caller's dictionary under the
`"id"` key. -/
theorem standardInit_id_formatting (d : AList) :
    (∀ v, getKey d "id" = some v →
      (standardInit d).1.sid = .vstr ("[" ++ pyStr v ++ "] ") ∧
      getKey (standardInit d).2 "id" = some (.vstr ("[" ++ pyStr v ++ "] "))) ∧
    (getKey d "id" = none →
      (standardInit d).1.sid = .vstr "" ∧
      getKey (standardInit d).2 "id" = some (.vstr "")) := by
  constructor
  · intro v hv
    have hh : hasKey d "id" = true := hasKey_iff_getKey.mpr ⟨v, hv⟩
    simp [standardInit, hh, hv]
  · intro hv
    have hh : ¬ hasKey d "id" = true := by
      simp [hasKey_false_iff_getKey.mpr hv]
    simp [standardInit, hh]

/-- Witness for C10 at a concrete dictionary with a string id. -/
theorem standardInit_id_formatting_witness :
    (standardInit [("id", .vstr "ANSIBLE0002")]).1.sid = .vstr "[ANSIBLE0002] " ∧
    getKey (standardInit [("id", .vstr "ANSIBLE0002")]).2 "id" =
      some (.vstr "[ANSIBLE0002] ") := by
  simpa using (standardInit_id_formatting [("id", .vstr "ANSIBLE0002")]).1
    (.vstr "ANSIBLE0002") rfl

/-!
## Filesystem and path model

`os.path.exists` / `os.path.isdir` are abstracted as predicates on path
strings; `os.path.join` and the external loader's `path_dwim` are modelled
syntactically.
-/

/-- An abstract filesystem: which paths exist, and which are directories. -/
structure FS where
  pathExists : String → Bool
  isDir : String → Bool

/-- Modelled from the spec: `os.path.join(a, b)` — `b` when `b` is
absolute, otherwise `a` extended with a separator and `b`.  Path
normalization (collapsing `..`) is not modelled; paths remain syntactic
joins. -/
def pjoin (a b : String) : String :=
  if strIsAbs b then b else a ++ "/" ++ b

/-- Modelled from the spec: the external loader's path resolution
(`path_dwim`), which resolves `given` relative to `basedir` unless it is
absolute. -/
def path_dwim (basedir given : String) : String := pjoin basedir given

/-- One dependency edge, i.e. a `{"path": ..., "type": ...}` result dict;
`etype` is the dict's `"type"` entry. -/
structure Edge where
  path : String
  etype : String
deriving DecidableEq

/-!
## Dependency-graph resolver (`yamlhelper.py`)
-/

/-- `_rolepath` (lines 309–337): try the fixed, ordered candidate list —
`<basedir>/roles/<role>`, `<basedir>/<role>`, two ancestor-relative
locations, then each directory of the configured role search path
(`constants.DEFAULT_ROLES_PATH`, here the parameter `rolesSearch`) — and
return the first that is a directory.  The module-library registration
(`_load_library_if_exists`) is a process-global side effect with no bearing
on the returned value and is not modelled. -/
def _rolepath (fs : FS) (rolesSearch : List String)
    (basedir role : String) : Option String :=
  let possiblePaths :=
    [path_dwim basedir (pjoin "roles" role),
     path_dwim basedir role,
     path_dwim basedir
       (pjoin (pjoin (pjoin (pjoin ".." "..") "..") "roles") role),
     path_dwim basedir (pjoin (pjoin ".." "..") role)] ++
    rolesSearch.map (fun loc => path_dwim loc role)
  possiblePaths.find? fs.isDir

/-- `_look_for_role_files` (lines 340–353): for each of the directories
`tasks`, `handlers`, `meta` of the resolved role path, emit an edge for
`<main>.yml` if it exists, else for `<main>.yaml` if that exists
(the inner `break` stops at the first existing extension); the edge's
`"type"` entry is the directory name `th` itself. -/
def _look_for_role_files (fs : FS) (rolesSearch : List String)
    (basedir role main : String) : List Edge :=
  match _rolepath fs rolesSearch basedir role with
  | none => []
  | some rolePath =>
    ["tasks", "handlers", "meta"].foldl (fun results th =>
      let yml := pjoin rolePath (pjoin th (main ++ ".yml"))
      let yaml := pjoin rolePath (pjoin th (main ++ ".yaml"))
      if fs.pathExists yml then results ++ [⟨yml, th⟩]
      else if fs.pathExists yaml then results ++ [⟨yaml, th⟩]
      else results) []

/-- C1 (amended): for a resolved role directory with `tasks/main.yml` and
`handlers/main.yml` present but no `meta/main.yml` or `meta/main.yaml`,
`_look_for_role_files` returns exactly two edges, one per existing file —
but their `"type"` entries are the raw directory names `"tasks"` and
`"handlers"`; the semantic-kind map (`tasks`→`task`, `handlers`→`handler`)
is applied only later, by `add_action_type` during extraction. -/
theorem look_for_role_files_two_edges
    (fs : FS) (rolesSearch : List String) (basedir role rp : String)
    (hrp : _rolepath fs rolesSearch basedir role = some rp)
    (ht : fs.pathExists (pjoin rp (pjoin "tasks" "main.yml")) = true)
    (hh : fs.pathExists (pjoin rp (pjoin "handlers" "main.yml")) = true)
    (hm1 : fs.pathExists (pjoin rp (pjoin "meta" "main.yml")) = false)
    (hm2 : fs.pathExists (pjoin rp (pjoin "meta" "main.yaml")) = false) :
    _look_for_role_files fs rolesSearch basedir role "main" =
      [⟨pjoin rp (pjoin "tasks" "main.yml"), "tasks"⟩,
       ⟨pjoin rp (pjoin "handlers" "main.yml"), "handlers"⟩] := by
  simp [_look_for_role_files, hrp, List.foldl, ht, hh, hm1, hm2]

/-- Concrete filesystem for C1: a `myrole` role directory under
`/proj/roles` with tasks and handlers main files but no meta file. -/
def c1fs : FS :=
  { pathExists := fun p =>
      p == "/proj/roles/myrole/tasks/main.yml" ||
      p == "/proj/roles/myrole/handlers/main.yml"
    isDir := fun p => p == "/proj/roles/myrole" }

/-- C1 counterexample: on the concrete role directory the two returned
edges carry the kinds `"tasks"` and `"handlers"` — not the semantic kinds
`"task"` and `"handler"` the claim states. -/
theorem look_for_role_files_kind_counterexample :
    ((_look_for_role_files c1fs [] "/proj" "myrole" "main").map Edge.etype =
      ["tasks", "handlers"]) ∧
    ((_look_for_role_files c1fs [] "/proj" "myrole" "main").map Edge.etype ≠
      ["task", "handler"]) := by
  constructor
  · rfl
  · decide

/-- Witness for C1 (amended) at the concrete filesystem. -/
theorem look_for_role_files_two_edges_witness :
    _look_for_role_files c1fs [] "/proj" "myrole" "main" =
      [⟨"/proj/roles/myrole/tasks/main.yml", "tasks"⟩,
       ⟨"/proj/roles/myrole/handlers/main.yml", "handlers"⟩] := by
  simpa using look_for_role_files_two_edges c1fs [] "/proj" "myrole"
    "/proj/roles/myrole" rfl rfl rfl rfl rfl

/-- `tokenize` (lines 131–149): left-strip and split the line on single
spaces, drop a leading `-`, drop a leading `action:`/`local_action:`, strip
colons from the command token, then partition the remaining tokens into
`key=value` pairs (until the first token without `=`) and positional
arguments.  (Python's `split` always returns at least one token, so the
`tokens[0]` reads never raise; the `headD ""` defaults are equivalent.) -/
def tokenize (line : String) : String × List String × AList :=
  let tokens0 := pySplitSpace (pyLStrip line)
  let tokens1 := if tokens0.headD "" = "-" then tokens0.tail else tokens0
  let tokens2 :=
    if tokens1.headD "" = "action:" ∨ tokens1.headD "" = "local_action:" then
      tokens1.tail
    else tokens1
  let command := stripColons (tokens2.headD "")
  let scan := (tokens2.drop 1).foldl
    (fun (st : List String × AList × Bool) arg =>
      let (args, kwargs, nonkvfound) := st
      if strHasChar arg '=' && !nonkvfound then
        let kv := pySplitEqOnce arg
        (args, setKey kwargs kv.1 (.vstr kv.2), nonkvfound)
      else (args ++ [arg], kwargs, true))
    ([], [], false)
  (command, scan.1, scan.2.1)

/-- `_include_children` (lines 228–235): tokenize `"k: v"` and index the
first positional token with `args[0]` — a value with no positional token
(for instance a pure `key=value` include value) raises `IndexError` there.
Otherwise resolve that token relative to `basedir`; if the resolved path
does not exist and `basedir` does not end in `tasks`, re-resolve — notice:
the raw value `v`, not the tokenized first argument — against the sibling
`tasks` directory.  One edge is returned either way, typed with the parent
type.  (Python formats `v` with an f-string, so a non-string `v` is
stringified for tokenizing; the retry path passes `v` itself to
`path_dwim`, which needs a string — other values raise `TypeError`
there.) -/
def _include_children (fs : FS) (basedir k : String) (v : Val)
    (parentType : String) : Except Err (List Edge) :=
  let toks := tokenize (k ++ ": " ++ pyStr v)
  match toks.2.1 with
  | [] => .error .indexError
  | a :: _ =>
    let result := path_dwim basedir a
    if !fs.pathExists result && !strEndsWith basedir "tasks" then
      match v with
      | .vstr s =>
        .ok [⟨path_dwim (pjoin (pjoin basedir "..") "tasks") s, parentType⟩]
      | _ => .error .typeError
    else .ok [⟨result, parentType⟩]

/-- `append_children` (lines 278–283): resolve the include value against
the basedir — with no existence check and no retry — and type the edge
with the containing section when the parent is a playbook, else with the
parent type. -/
def append_children (basedir k parentType : String) (taskhandler : Val) :
    Except Err Edge :=
  match taskhandler with
  | .vstr s =>
    let playbookSection := if parentType = "playbook" then k else parentType
    .ok ⟨path_dwim basedir s, playbookSection⟩
  | _ => .error .typeError

/-- Python `x in container` for the `skip_ansible_later` tags test:
membership on lists, substring on strings, key membership on dicts,
`TypeError` otherwise. -/
def pyContains (container : Val) (s : String) : Except Err Bool :=
  match container with
  | .vlist l => .ok (l.any (fun x => Val.eqb x (.vstr s)))
  | .vstr t => .ok (strContainsSub t s)
  | .vmap m => .ok (hasKey m s)
  | _ => .error .typeError

/-- `_roles_children` (lines 286–301): for each role reference — a mapping
carrying `role` or `name` (else `SystemExit`), or a plain string — collect
the role's discoverable files, skipping a mapping whose `tags` contain
`skip_ansible_later`. -/
def _roles_children (fs : FS) (rolesSearch : List String)
    (basedir k : String) (v : List Val) (parentType main : String) :
    Except Err (List Edge) :=
  v.foldlM (fun results role =>
    match role with
    | .vmap r =>
      if hasKey r "role" || hasKey r "name" then do
        let skip ←
          if hasKey r "tags" then
            pyContains ((getKey r "tags").getD .vnull) "skip_ansible_later"
          else pure false
        if skip then pure results
        else
          match (getKey r "role").getD ((getKey r "name").getD .vnull) with
          | .vstr rname =>
            pure (results ++ _look_for_role_files fs rolesSearch basedir rname main)
          | _ => .error .typeError
      else .error .roleDictError
    | .vstr s =>
      pure (results ++ _look_for_role_files fs rolesSearch basedir s main)
    | _ => .error .typeError) []

/-- The keys `_taskshandlers_children` probes with `in`, in source order. -/
def TH_KEYWORDS : List String :=
  ["include", "include_tasks", "import_playbook", "import_tasks",
   "import_role", "include_role", "block"]

/-- A non-dict task item under `_taskshandlers_children`: Python's `in`
probes check substrings on strings and membership on lists — a hit leads
to an indexing `TypeError`, a miss skips the item; `in` on
`None`/booleans/ints raises `TypeError` directly. -/
def thScalarItem : Val → Except Err Unit
  | .vmap _ => .ok ()
  | .vstr s =>
    if TH_KEYWORDS.any (fun kw => strContainsSub s kw) then .error .typeError
    else .ok ()
  | .vlist l =>
    if TH_KEYWORDS.any (fun kw => l.any (fun x => Val.eqb x (.vstr kw))) then
      .error .typeError
    else .ok ()
  | _ => .error .typeError

theorem sizeOf_getKey_lt {m : AList} {q : String} {v : Val}
    (h : getKey m q = some v) : sizeOf v < sizeOf m := by
  induction m with
  | nil => simp at h
  | cons p rest ih =>
    obtain ⟨a, b⟩ := p
    rw [getKey_cons] at h
    by_cases hp : a = q
    · simp [hp] at h
      subst h
      simp only [List.cons.sizeOf_spec, Prod.mk.sizeOf_spec]
      omega
    · simp only [hp] at h
      have := ih (by simpa [hp] using h)
      simp only [List.cons.sizeOf_spec, Prod.mk.sizeOf_spec]
      omega

theorem sizeOf_alist_pos (m : AList) : 0 < sizeOf m := by
  cases m <;> simp only [List.nil.sizeOf_spec, List.cons.sizeOf_spec] <;> omega

theorem sizeOf_getD_vnull_lt (m : AList) (q : String) :
    sizeOf ((getKey m q).getD Val.vnull) < sizeOf (Val.vmap m) := by
  cases hg : getKey m q with
  | none =>
    have := sizeOf_alist_pos m
    simp only [Option.getD, Val.vmap.sizeOf_spec, Val.vnull.sizeOf_spec]
    omega
  | some v =>
    have := sizeOf_getKey_lt hg
    simp only [Option.getD, Val.vmap.sizeOf_spec]
    omega

/-- `thRoleImport`: the `import_role`/`include_role` arms of the loop
(lines 249–268): the directive's value must be a mapping (Python calls
`.get` on it); its `name` entry (default `None`) is passed as the single
role reference and its `tasks_from` entry (default `"main"`, which must be
a string to survive the later path join) as the alternate basename. -/
def thRoleImport (fs : FS) (rolesSearch : List String)
    (basedir k parentType : String) : Val → Except Err (List Edge)
  | .vmap rm => do
    let main ←
      match getKey rm "tasks_from" with
      | none => pure "main"
      | some (.vstr s) => pure s
      | some _ => .error .typeError
    _roles_children fs rolesSearch basedir k
      [((getKey rm "name").getD .vnull)] parentType main
  | _ => .error .typeError

mutual

/-- `_taskshandlers_children` (lines 238–275), as the loop over the task
items: dispatch each item on its first matching key (`include`,
`include_tasks`, `import_playbook`, `import_tasks`, `import_role`,
`include_role`, `block`) and concatenate the recursive results in source
order. -/
def _taskshandlers_children (fs : FS) (rolesSearch : List String)
    (basedir k parentType : String) : List Val → Except Err (List Edge)
  | [] => .ok []
  | th :: rest => do
    let headEdges ← thItemChildren fs rolesSearch basedir k parentType th
    let tailEdges ←
      _taskshandlers_children fs rolesSearch basedir k parentType rest
    pure (headEdges ++ tailEdges)
termination_by l => sizeOf l
decreasing_by
  all_goals simp only [List.cons.sizeOf_spec]
  all_goals omega

/-- One iteration of the `_taskshandlers_children` loop body. -/
def thItemChildren (fs : FS) (rolesSearch : List String)
    (basedir k parentType : String) : Val → Except Err (List Edge)
  | .vmap m =>
    if hasKey m "include" then do
      let e ← append_children basedir k parentType
        ((getKey m "include").getD .vnull)
      pure [e]
    else if hasKey m "include_tasks" then do
      let e ← append_children basedir k parentType
        ((getKey m "include_tasks").getD .vnull)
      pure [e]
    else if hasKey m "import_playbook" then do
      let e ← append_children basedir k parentType
        ((getKey m "import_playbook").getD .vnull)
      pure [e]
    else if hasKey m "import_tasks" then do
      let e ← append_children basedir k parentType
        ((getKey m "import_tasks").getD .vnull)
      pure [e]
    else if hasKey m "import_role" then
      thRoleImport fs rolesSearch basedir k parentType
        ((getKey m "import_role").getD .vnull)
    else if hasKey m "include_role" then
      thRoleImport fs rolesSearch basedir k parentType
        ((getKey m "include_role").getD .vnull)
    else if hasKey m "block" then do
      let sub1 ← thBlockValue fs rolesSearch basedir k parentType
        ((getKey m "block").getD .vnull)
      let sub2 ←
        if hasKey m "rescue" then
          thBlockValue fs rolesSearch basedir k parentType
            ((getKey m "rescue").getD .vnull)
        else pure []
      let sub3 ←
        if hasKey m "always" then
          thBlockValue fs rolesSearch basedir k parentType
            ((getKey m "always").getD .vnull)
        else pure []
      pure (sub1 ++ sub2 ++ sub3)
    else pure []
  | sc => do
    thScalarItem sc
    pure []
termination_by v => sizeOf v
decreasing_by
  all_goals first
    | exact sizeOf_getD_vnull_lt _ "block"
    | exact sizeOf_getD_vnull_lt _ "rescue"
    | exact sizeOf_getD_vnull_lt _ "always"

/-- Recursive descent into a `block`/`rescue`/`always` value: lists recurse
into the loop; a dict would be iterated over its keys and a string over its
characters, none of which can match a probe key, so they contribute
nothing (a dict key that merely *contains* a probe key as a substring
still hits an `in` probe and raises); other values are not iterable. -/
def thBlockValue (fs : FS) (rolesSearch : List String)
    (basedir k parentType : String) : Val → Except Err (List Edge)
  | .vlist l => _taskshandlers_children fs rolesSearch basedir k parentType l
  | .vmap mm =>
    if mm.any (fun p => TH_KEYWORDS.any (fun kw => strContainsSub p.1 kw)) then
      .error .typeError
    else .ok []
  | .vstr _ => .ok []
  | _ => .error .typeError
termination_by v => sizeOf v
decreasing_by
  all_goals simp only [Val.vlist.sizeOf_spec]
  all_goals omega

end

/-- Python iteration (`for x in v`): lists yield their items, dicts their
keys, strings their single-character substrings; other values raise
`TypeError`. -/
def pyIterate : Val → Except Err (List Val)
  | .vlist l => .ok l
  | .vmap m => .ok (m.map fun p => .vstr p.1)
  | .vstr s => .ok (s.data.map fun c => .vstr ⟨[c]⟩)
  | _ => .error .typeError

/-- `play_children` (lines 201–225), exactly as defined in the source —
with three data parameters `(basedir, item, parent_type)`.  Dispatches the
play's key to `_taskshandlers_children`, `_include_children` or
`_roles_children` when the value is truthy.  The templating collaborator
(`template`, line 218) is modelled from the spec as the identity: on values
containing no template expression it returns its input unchanged, and this
development only evaluates plays with concrete values.  The play-library
registration (line 214–215) is a process-global side effect with no
bearing on the returned edges and is not modelled. -/
def play_children (fs : FS) (rolesSearch : List String) (basedir : String)
    (item : String × Val) (parentType : String) : Except Err (List Edge) :=
  let (k, v) := item
  if v.truthy then
    if k == "include" || k == "import_playbook" then
      _include_children fs basedir k v parentType
    else if k == "roles" || k == "dependencies" then do
      let l ← pyIterate v
      _roles_children fs rolesSearch basedir k l parentType "main"
    else if k == "tasks" || k == "pre_tasks" || k == "post_tasks" ||
        k == "block" || k == "handlers" then do
      let l ← pyIterate v
      _taskshandlers_children fs rolesSearch basedir k parentType l
    else .ok []
  else .ok []

/-- `_playbook_items` (lines 152–159): a dict's own items; `[]` for a
falsy value; otherwise the concatenated items of every play (each play
must be a dict for `.items()` to exist). -/
def _playbook_items : Val → Except Err (List (String × Val))
  | .vmap m => .ok m
  | v =>
    if !v.truthy then .ok []
    else
      match v with
      | .vlist plays =>
        plays.foldlM (fun acc p =>
          match p with
          | .vmap m => .ok (acc ++ m)
          | _ => .error .typeError) []
      | _ => .error .typeError

/-- `find_children` (lines 162–186).  `parsed` stands for the external
loader's result for `playbook.1` (`parse_yaml_from_file`, an external
collaborator).  A missing entry path returns `[]` (lines 163–164).
Otherwise line 176 calls `play_children(basedir, item, playbook[1],
playbook_dir)` with four arguments while `play_children` (line 201) is
defined with three parameters, so the first loop iteration raises
`TypeError`: the loop body is unreachable, and resolution of any playbook
with at least one play item errors out. -/
def find_children (fs : FS) (rolesSearch : List String)
    (playbook : String × String) (parsed : Val) (playbookDir : String) :
    Except Err (List Edge) :=
  if !fs.pathExists playbook.1 then .ok []
  else
    let ds :=
      if playbook.2 == "role" then
        Val.vmap [("roles", .vlist [.vmap [("role", .vstr playbook.1)]])]
      else parsed
    do
      let items ← _playbook_items ds
      if items.isEmpty then .ok []
      else .error .typeError

/-- C5 (amended): the sibling-`tasks` retry lives in `_include_children`,
which handles the bare play-level `include`/`import_playbook` keys: when
the tokenized value yields a first positional token (a value with none,
such as `include: x=y`, raises `IndexError` at `args[0]`) whose resolution
does not exist while the basedir does not end in `tasks`, the single
emitted edge's path is the raw value resolved against the sibling
`<basedir>/../tasks` directory.  `include_tasks` entries inside task lists
are resolved by `append_children`, which performs no existence check and
no retry (see the counterexample). -/
theorem include_children_sibling_tasks_retry
    (fs : FS) (basedir k s a parentType : String) (rest : List String)
    (hargs : (tokenize (k ++ ": " ++ s)).2.1 = a :: rest)
    (hmiss : fs.pathExists (path_dwim basedir a) = false)
    (hdir : strEndsWith basedir "tasks" = false) :
    _include_children fs basedir k (.vstr s) parentType =
      .ok [⟨path_dwim (pjoin (pjoin basedir "..") "tasks") s, parentType⟩] := by
  simp only [_include_children, pyStr]
  rw [hargs]
  simp only []
  rw [hmiss, hdir]
  simp

/-- Filesystem for C5: the include target is absent next to the including
file but present in the sibling `tasks` directory. -/
def c5fs : FS :=
  { pathExists := fun p => p == "/pb/tasks/sub.yml"
    isDir := fun _ => false }

/-- C5 counterexample: an `include_tasks: sub.yml` task entry whose target
`/pb/sub.yml` does not exist, in a directory not ending in `tasks`, is
resolved by `append_children` to `/pb/sub.yml` with no retry — not to the
sibling `tasks/sub.yml` the claim describes (which exists here). -/
theorem include_tasks_no_retry_counterexample :
    _taskshandlers_children c5fs [] "/pb" "tasks" "tasks"
        [.vmap [("include_tasks", .vstr "sub.yml")]] =
      .ok [⟨"/pb/sub.yml", "tasks"⟩] ∧
    c5fs.pathExists "/pb/sub.yml" = false ∧
    c5fs.pathExists "/pb/tasks/sub.yml" = true ∧
    strEndsWith "/pb" "tasks" = false ∧
    ("/pb/sub.yml" : String) ≠ "/pb/tasks/sub.yml" := by
  refine ⟨?_, rfl, rfl, rfl, by decide⟩
  simp [_taskshandlers_children, thItemChildren, append_children, hasKey,
    getKey, path_dwim, pjoin, strIsAbs, Except.bind, bind, pure, Except.pure]

/-- Witness for C5 (amended): a bare `include: sub.yml` play key with the
target missing next to the playbook resolves to the sibling
`tasks/sub.yml`. -/
theorem include_children_sibling_tasks_retry_witness :
    _include_children c5fs "/pb" "include" (.vstr "sub.yml") "playbook" =
      .ok [⟨"/pb/../tasks/sub.yml", "playbook"⟩] := by
  simpa using include_children_sibling_tasks_retry c5fs "/pb" "include"
    "sub.yml" "sub.yml" "playbook" [] rfl rfl rfl

/-- C7: for every entry pair whose path does not exist on the filesystem,
`find_children` returns the empty list rather than raising. -/
theorem find_children_missing_entry
    (fs : FS) (rolesSearch : List String) (playbook : String × String)
    (parsed : Val) (dir : String)
    (h : fs.pathExists playbook.1 = false) :
    find_children fs rolesSearch playbook parsed dir = .ok [] := by
  simp [find_children, h]

/-- Witness for C7 on an empty filesystem. -/
theorem find_children_missing_entry_witness :
    find_children ⟨fun _ => false, fun _ => false⟩ []
      ("/pb/site.yml", "playbook") .vnull "/pb" = .ok [] :=
  find_children_missing_entry _ _ _ _ _ rfl

/-- The parsed playbook of C2: one play whose `roles` list holds a single
role reference tagged `skip_ansible_later`. -/
def c2content : Val :=
  .vlist [.vmap [("roles",
    .vlist [.vmap [("role", .vstr "myrole"),
                   ("tags", .vlist [.vstr "skip_ansible_later"])]])]]

/-- Filesystem for C2: only the playbook itself exists. -/
def c2fs : FS :=
  { pathExists := fun p => p == "/pb/site.yml"
    isDir := fun _ => false }

/-- C2: evaluating `find_children` at the claim's end-to-end input — a
playbook carrying `roles: [{role: myrole, tags: [skip_ansible_later]}]` —
raises `TypeError` (the four-argument call at line 176 against the
three-parameter definition of `play_children` at line 201) instead of
returning the empty edge list the claim states. -/
theorem find_children_arity_bug_at_skip_tagged_role :
    find_children c2fs [] ("/pb/site.yml", "playbook") c2content "/pb" =
      .error .typeError := rfl

/-- The rule C2 describes does hold of the skipping logic itself: a role
mapping whose `tags` list contains `skip_ansible_later` contributes zero
edges in `_roles_children` (the function line 176 was meant to reach). -/
theorem roles_children_skip_tagged
    (fs : FS) (rolesSearch : List String)
    (basedir k parentType main : String) (r : AList) (ts : List Val)
    (hrole : (hasKey r "role" || hasKey r "name") = true)
    (htags : getKey r "tags" = some (.vlist ts))
    (hmem : ts.any (fun x => Val.eqb x (.vstr "skip_ansible_later")) = true) :
    _roles_children fs rolesSearch basedir k [.vmap r] parentType main =
      .ok [] := by
  have hhk : hasKey r "tags" = true := hasKey_iff_getKey.mpr ⟨_, htags⟩
  have hor : hasKey r "role" = true ∨ hasKey r "name" = true := by
    simpa [Bool.or_eq_true] using hrole
  simp [_roles_children, hor, hhk, htags, pyContains, hmem, Except.bind,
    bind, pure, Except.pure]

/-!
## Task extractor (`action_tasks`, `extract_from_list`, `add_action_type`)
-/

/-- `BLOCK_NAME_TO_ACTION_TYPE_MAP` (lines 120–128). -/
def BLOCK_NAME_TO_ACTION_TYPE_MAP : List (String × String) :=
  [("tasks", "task"), ("handlers", "handler"), ("pre_tasks", "task"),
   ("post_tasks", "task"), ("block", "meta"), ("rescue", "meta"),
   ("always", "meta")]

/-- Lookup in a string-to-string table. -/
def lookupStr : List (String × String) → String → Option String
  | [], _ => none
  | p :: rest, q => if p.1 = q then some p.2 else lookupStr rest q

/-- `add_action_type` (lines 486–493): give every action dict an
`__ansible_action_type__` entry mapped from the block name (`KeyError`
when the name is unmapped — looked up per iteration, so an empty list
raises nothing; `TypeError` when an action is not a dict), and an
`__ansible_action_meta__` entry when the supplied metadata is truthy.
Python mutates the dicts in place and returns them; the pure embedding
returns the transformed dicts, which is equivalent for every property
stated here. -/
def add_action_type (actions : List Val) (actionType : String)
    (actionMeta : Val) : Except Err (List Val) :=
  actions.foldlM (fun results a => do
    let ty ←
      match lookupStr BLOCK_NAME_TO_ACTION_TYPE_MAP actionType with
      | some t => pure t
      | none => .error .keyError
    match a with
    | .vmap m =>
      let m1 := setKey m "__ansible_action_type__" (.vstr ty)
      let m2 :=
        if actionMeta.truthy then
          setKey m1 "__ansible_action_meta__" actionMeta
        else m1
      pure (results ++ [Val.vmap m2])
    | _ => .error .typeError) []

/-- One `(block, candidate)` step of the `extract_from_list` double loop
(lines 470–482): a dict block owning the candidate key with a list value
has those items tagged (with the block's other fields as metadata); a null
value is skipped; any other value raises `RuntimeError`; non-dict blocks
and absent keys are skipped. -/
def eflCandidate (block : Val) (acc : List Val) (candidate : String) :
    Except Err (List Val) :=
  match block with
  | .vmap m =>
    match getKey m candidate with
    | some (.vlist l) => do
      let metaData := [candidate, "__line__", "__file__",
        "__ansible_action_type__"].foldl popKey m
      let sub ← add_action_type l candidate (.vmap metaData)
      pure (acc ++ sub)
    | some .vnull => pure acc
    | some _ => .error .structuralError
    | none => pure acc
  | _ => pure acc

/-- `extract_from_list` (lines 468–483): the double loop over blocks and
candidate keys. -/
def extract_from_list (blocks : List Val) (candidates : List String) :
    Except Err (List Val) :=
  blocks.foldlM (fun results block =>
    candidates.foldlM (eflCandidate block) results) []

/-- `q in t` as a Boolean: dict-key membership, substring on strings,
element membership on lists.  At its points of use in `action_tasks` every
entry is a dict (anything else was rejected by `add_action_type`); the
remaining cases are unreachable there. -/
def pyHasKeyB (t : Val) (q : String) : Bool :=
  match t with
  | .vmap m => hasKey m q
  | .vstr s => strContainsSub s q
  | .vlist l => l.any (fun x => Val.eqb x (.vstr q))
  | _ => false

/-- `action_tasks` (lines 434–449): collect candidate tasks (directly for
`tasks`/`handlers` files, from the play sections otherwise), append the
flattened contents of `block`/`rescue`/`always` entries, drop the
block-owner entries themselves, and finally drop every entry carrying an
include/import directive key. -/
def action_tasks (yaml : Val) (file : AList) : Except Err (List Val) :=
  (match getKey file "filetype" with
   | some v => pure v
   | none => .error .keyError) >>= fun ft =>
  (if Val.eqb ft (.vstr "tasks") || Val.eqb ft (.vstr "handlers") then
    pyIterate yaml >>= fun l => add_action_type l (pyStr ft) .vnull
  else
    pyIterate yaml >>= fun l =>
      extract_from_list l ["tasks", "handlers", "pre_tasks", "post_tasks"])
  >>= fun tasks =>
  extract_from_list tasks ["block", "rescue", "always"] >>= fun extracted =>
  let tasks2 := tasks ++ extracted
  let tasks3 := tasks2.filter (fun t =>
    ["block", "rescue", "always"].all (fun q => !(pyHasKeyB t q)))
  pure (tasks3.filter (fun t =>
    ["include", "include_tasks", "import_playbook", "import_tasks"].all
      (fun q => !(pyHasKeyB t q))))

/-!
### C8: a non-list, non-null `block`/`rescue`/`always` value is fatal
-/

theorem bind_ok {α β : Type} {e : Except Err α} {f : α → Except Err β}
    {b : β} (h : (e >>= f) = .ok b) : ∃ a, e = .ok a ∧ f a = .ok b := by
  cases e with
  | ok a => exact ⟨a, rfl, h⟩
  | error err => simp [Bind.bind, Except.bind] at h

theorem exOk_bind_false {α β : Type} {e : Except Err α}
    {f : α → Except Err β}
    (h : ∀ a, e = .ok a → exOk (f a) = false) :
    exOk (e >>= f) = false := by
  cases e with
  | ok a => simpa [Bind.bind, Except.bind] using h a rfl
  | error err => rfl

theorem eflCandidate_inner_error {m : AList} {candidate : String} {v : Val}
    (cs : List String) (acc : List Val)
    (hc : candidate ∈ cs) (hg : getKey m candidate = some v)
    (hnl : ∀ l, v ≠ .vlist l) (hnn : v ≠ .vnull) :
    exOk (cs.foldlM (eflCandidate (.vmap m)) acc) = false := by
  induction cs generalizing acc with
  | nil => simp at hc
  | cons c rest ih =>
    rw [List.foldlM_cons]
    rcases List.mem_cons.mp hc with heq | hmem
    · subst heq
      apply exOk_bind_false
      intro a ha
      exfalso
      simp only [eflCandidate] at ha
      rw [hg] at ha
      cases v with
      | vlist l => exact hnl l rfl
      | vnull => exact hnn rfl
      | vbool b => simp at ha
      | vint i => simp at ha
      | vstr s => simp at ha
      | vmap mm => simp at ha
    · apply exOk_bind_false
      intro a _
      exact ih a hmem

/-- C8: for every block entry whose `block`/`rescue`/`always` (more
generally: any candidate) key holds a value that is neither a list nor
null, `extract_from_list` raises the fatal `RuntimeError` instead of
returning a result. -/
theorem extract_from_list_bad_value_raises
    (blocks : List Val) (candidates : List String) (m : AList)
    (candidate : String) (v : Val)
    (hb : Val.vmap m ∈ blocks) (hc : candidate ∈ candidates)
    (hg : getKey m candidate = some v)
    (hnl : ∀ l, v ≠ .vlist l) (hnn : v ≠ .vnull) :
    exOk (extract_from_list blocks candidates) = false := by
  unfold extract_from_list
  suffices hgen : ∀ acc : List Val,
      exOk (blocks.foldlM (fun results block =>
        candidates.foldlM (eflCandidate block) results) acc) = false from
    hgen []
  induction blocks with
  | nil => simp at hb
  | cons b rest ih =>
    intro acc
    rw [List.foldlM_cons]
    rcases List.mem_cons.mp hb with heq | hmem
    · subst heq
      apply exOk_bind_false
      intro a ha
      exact absurd ha (by
        have := eflCandidate_inner_error candidates acc hc hg hnl hnn
        intro hcontra
        rw [hcontra] at this
        simp [exOk] at this)
    · apply exOk_bind_false
      intro a _
      exact ih hmem a

/-- Witness for C8: a block whose `block` key holds a string. -/
theorem extract_from_list_bad_value_raises_witness :
    exOk (extract_from_list [.vmap [("block", .vstr "oops")]]
      ["block", "rescue", "always"]) = false :=
  extract_from_list_bad_value_raises _ _ [("block", .vstr "oops")] "block"
    (.vstr "oops") (List.mem_singleton.mpr rfl) (by simp) rfl
    (fun l => by simp) (by simp)

/-!
### C4: the returned action list never carries structural keys
-/

/-- C4: for every parsed content and file descriptor, no entry of the list
returned by `action_tasks` contains any of the keys `block`, `rescue`,
`always`, `include`, `include_tasks`, `import_playbook`, `import_tasks` —
the two final filters (lines 444–449) remove every such entry. -/
theorem action_tasks_no_structural_keys
    (yaml : Val) (file : AList) (l : List Val)
    (h : action_tasks yaml file = .ok l) :
    ∀ t ∈ l, ∀ q ∈ (["block", "rescue", "always", "include",
      "include_tasks", "import_playbook", "import_tasks"] : List String),
      pyHasKeyB t q = false := by
  unfold action_tasks at h
  obtain ⟨ft, hft, h⟩ := bind_ok h
  obtain ⟨tasks, htasks, h⟩ := bind_ok h
  obtain ⟨extracted, hext, h⟩ := bind_ok h
  simp only [pure, Except.pure, Except.ok.injEq] at h
  intro t ht q hq
  rw [← h] at ht
  obtain ⟨ht3, hallow⟩ := List.mem_filter.mp ht
  obtain ⟨ht2, hbra⟩ := List.mem_filter.mp ht3
  simp only [List.all_eq_true, List.mem_cons, List.not_mem_nil, or_false,
    Bool.not_eq_true', forall_eq_or_imp, forall_eq] at hallow hbra
  fin_cases hq
  · exact hbra.1
  · exact hbra.2.1
  · exact hbra.2.2
  · exact hallow.1
  · exact hallow.2.1
  · exact hallow.2.2.1
  · exact hallow.2.2.2

/-- The parsed playbook used as the C4 witness input. -/
def c4yaml : Val :=
  .vlist [.vmap [("tasks", .vlist [.vmap [("debug", .vstr "msg=a")]])]]

/-- The file descriptor used as the C4 witness input. -/
def c4file : AList := [("filetype", .vstr "playbook")]

/-- Witness for C4 at a one-play playbook with one task. -/
theorem action_tasks_no_structural_keys_witness :
    pyHasKeyB (.vmap [("debug", .vstr "msg=a"),
      ("__ansible_action_type__", .vstr "task")]) "block" = false :=
  action_tasks_no_structural_keys c4yaml c4file
    [.vmap [("debug", .vstr "msg=a"),
      ("__ansible_action_type__", .vstr "task")]] rfl
    _ (List.mem_singleton.mpr rfl) "block" (by simp)

/-!
## Task normalizer (`normalize_task`, lines 369–431)

The module-argument grammar (`ModuleArgsParser`) is an external
collaborator; per the spec its interface is
`parse(taskMapping) → (module, arguments, delegateTo)`, failing on
invalid or ambiguous action declarations.  It is modelled below from the
spec's description of the heterogeneous task shapes (shorthand `k=v`
strings, `action`/`local_action` forms, module-as-key with mapping or null
arguments) together with the behaviours `normalize_task` itself relies on
(the `_uses_shell` shell-conversion flag and the `_raw_params` free-form
argument field).
-/

/-- The builtin task-action names of `ansible.parsing.mod_args`
(`BUILTIN_TASKS`), which `normalize_task` (lines 391–393) extends with the
configured custom modules. -/
def BUILTIN_TASKS : List String :=
  ["meta", "include", "include_tasks", "include_role", "import_tasks",
   "import_role"]

/-- Modelled from the spec: the module names resolvable through the
external module loader (a representative fixed set; the loader is
process-wide state populated by configuration). -/
def LOADER_MODULES : List String :=
  ["command", "shell", "script", "raw", "debug", "copy", "file", "template",
   "service", "user", "setup", "lineinfile", "stat", "yum", "apt", "git"]

/-- Modelled from the spec: the free-form module names, whose positional
remainder is collected into `_raw_params`. -/
def FREEFORM_MODULES : List String :=
  ["command", "shell", "script", "raw", "meta"]

/-- A task key that resolves as an action: a builtin task action, a
loadable module, or a configured custom module. -/
def knownAction (custom : List String) (k : String) : Bool :=
  BUILTIN_TASKS.contains k || LOADER_MODULES.contains k ||
    custom.contains k

/-- Modelled from the spec: `parse_kv` of the grammar — `key=value` tokens
become argument entries (later duplicates overwrite, as in a Python dict);
a trailing free-form remainder becomes `_raw_params` for free-form modules
and is a grammar error otherwise. -/
def parseKVString (mname : String) (s : String) : Except Err AList :=
  let tokens := pySplitWs s
  let kvToks := tokens.takeWhile (fun t => strHasChar t '=')
  let rawToks := tokens.dropWhile (fun t => strHasChar t '=')
  let base := kvToks.foldl (fun m t =>
    let kv := pySplitEqOnce t
    setKey m kv.1 (.vstr kv.2)) []
  if rawToks.isEmpty then .ok base
  else if FREEFORM_MODULES.contains mname then
    .ok (setKey base "_raw_params" (.vstr (String.intercalate " " rawToks)))
  else .error .grammarError

/-- Modelled from the spec: resolving the value under an
`action:`/`local_action:` key — a string `"module k=v …"`, or a mapping
carrying a `module` entry whose remaining entries are the arguments. -/
def parseActionVal : Val → Except Err (String × AList)
  | .vstr s =>
    match pySplitWs s with
    | [] => .error .noAction
    | mname :: rest => do
      let args ← parseKVString mname (String.intercalate " " rest)
      pure (mname, args)
  | .vmap m =>
    match getKey m "module" with
    | some (.vstr mname) => pure (mname, popKey m "module")
    | _ => .error .noAction
  | _ => .error .grammarError

/-- Modelled from the spec: the value under a module-name key — a `k=v`
string, a mapping used directly as the arguments, or null for no
arguments. -/
def argsOfThing (mname : String) : Val → Except Err AList
  | .vstr s => parseKVString mname s
  | .vmap m => .ok m
  | .vnull => .ok []
  | _ => .error .grammarError

/-- The grammar's result triple `(module, arguments, delegate_to)`. -/
structure ParseOut where
  action : String
  arguments : AList
  delegate : Val

/-- Modelled from the spec: the grammar's shell normalisation — a `shell`
action is reported as `command` with the `_uses_shell` flag set in the
arguments (the flag `normalize_task` de-normalises at lines 402–404). -/
def shellFixup (mname : String) (args : AList) (delegate : Val) :
    Except Err ParseOut :=
  if mname == "shell" then
    .ok ⟨"command", setKey args "_uses_shell" (.vbool true), delegate⟩
  else .ok ⟨mname, args, delegate⟩

/-- Modelled from the spec: the external module-argument grammar
(`ModuleArgsParser.parse`): resolve the task's action form — an `action:`
or `local_action:` key, or exactly one module-name key; two action
declarations conflict, none at all is an error — into
`(module, arguments, delegate_to)`.  An `args:` entry contributes
additional argument entries that explicit arguments override;
`local_action` sets the delegation target to `localhost`; otherwise the
delegation target is the task's `delegate_to` entry. -/
def parseModArgs (custom : List String) (task : AList) :
    Except Err ParseOut :=
  (match getKey task "args" with
   | none => pure ([] : AList)
   | some (.vmap m) => pure m
   | some (.vstr s) => parseKVString "" s
   | some _ => .error .grammarError) >>= fun additional =>
  let moduleKeys := task.filter (fun p => knownAction custom p.1)
  if hasKey task "action" then
    if moduleKeys.isEmpty then
      parseActionVal ((getKey task "action").getD .vnull) >>= fun ma =>
        shellFixup ma.1 (updateAll additional ma.2)
          ((getKey task "delegate_to").getD .vnull)
    else .error .conflictingAction
  else if hasKey task "local_action" then
    if moduleKeys.isEmpty then
      parseActionVal ((getKey task "local_action").getD .vnull) >>= fun ma =>
        shellFixup ma.1 (updateAll additional ma.2) (.vstr "localhost")
    else .error .conflictingAction
  else
    match moduleKeys with
    | [] => .error .noAction
    | [(mname, thing)] =>
      argsOfThing mname thing >>= fun args =>
        shellFixup mname (updateAll additional args)
          ((getKey task "delegate_to").getD .vnull)
    | _ => .error .conflictingAction

/-- The keys `normalize_task` never re-merges from the raw task
(line 407). -/
def RESERVED_PASS : List String :=
  ["action", "local_action", "args", "delegate_to"]

/-- The raw task after the bookkeeping pops of lines 375–387. -/
def strip4 (task : AList) : AList :=
  popKey (popKey (popKey (popKey task "__ansible_action_type__")
    "__line__") "__file__") "__ansible_action_meta__"

/-- The action mapping of lines 414–421: `{"__ansible_module__": action}`,
then `__ansible_arguments__`, then updated with the parsed arguments. -/
def buildActionDict (action : String) (rawArgs : List Val) (args : AList) :
    AList :=
  updateAll [("__ansible_module__", Val.vstr action),
             ("__ansible_arguments__", Val.vlist rawArgs)] args

/-- Lines 397 and 406–429: the normalized record — `delegate_to` first
(assigned while unpacking the parse result), then the pass-through fields,
then `action`, `__file__`, `__ansible_action_type__`, then the truthy
extracted metadata re-added in the fixed order `__line__`, `__file__`,
`__ansible_action_meta__` (`__file__` is overwritten in place). -/
def assembleRecord (delegate : Val) (passthrough : AList)
    (actionDict : AList) (filename : String)
    (aat metaLine metaFile metaMeta : Val) : AList :=
  let n0 := updateAll [("delegate_to", delegate)] passthrough
  let n1 := setKey n0 "action" (.vmap actionDict)
  let n2 := setKey n1 "__file__" (.vstr filename)
  let n3 := setKey n2 "__ansible_action_type__" aat
  let n4 := if metaLine.truthy then setKey n3 "__line__" metaLine else n3
  let n5 := if metaFile.truthy then setKey n4 "__file__" metaFile else n4
  if metaMeta.truthy then setKey n5 "__ansible_action_meta__" metaMeta
  else n5

/-- `normalize_task` (lines 369–431).  Returns the normalization result
together with the post-call state of the caller's task mapping: Python
mutates the input — the `del` at line 377 and the three `pop`s at line 387
strip the bookkeeping keys before the grammar parse, so they are gone even
when the parse fails.  A non-string `_raw_params` raises `AttributeError`
at line 417's `.strip()` (`typeError` here).  The `BUILTIN_TASKS`
extension with `custom_modules` (lines 391–393) is reflected by threading
`custom` into the grammar's `knownAction`. -/
def normalize_task (custom : List String) (task : AList)
    (filename : String) : Except Err AList × AList :=
  let aat := (getKey task "__ansible_action_type__").getD (.vstr "task")
  let t1 := popKey task "__ansible_action_type__"
  let metaLine := (getKey t1 "__line__").getD .vnull
  let t2 := popKey t1 "__line__"
  let metaFile := (getKey t2 "__file__").getD .vnull
  let t3 := popKey t2 "__file__"
  let metaMeta := (getKey t3 "__ansible_action_meta__").getD (.vmap [])
  let t4 := popKey t3 "__ansible_action_meta__"
  match parseModArgs custom t4 with
  | .error e => (.error e, t4)
  | .ok po =>
    let uses := hasKey po.arguments "_uses_shell"
    let action := if uses then "shell" else po.action
    let arguments :=
      if uses then popKey po.arguments "_uses_shell" else po.arguments
    let passthrough := t4.filter (fun p =>
      !(RESERVED_PASS.contains p.1 || p.1 == action))
    match getKey arguments "_raw_params" with
    | some (.vstr rp) =>
      (.ok (assembleRecord po.delegate passthrough
        (buildActionDict action ((pySplitWs (pyStrip rp)).map Val.vstr)
          (popKey arguments "_raw_params"))
        filename aat metaLine metaFile metaMeta), t4)
    | some _ => (.error .typeError, t4)
    | none =>
      (.ok (assembleRecord po.delegate passthrough
        (buildActionDict action [] arguments)
        filename aat metaLine metaFile metaMeta), t4)

/-- The resolved module name stored in a normalized record. -/
def recordModule (n : AList) : Option String :=
  match getKey n "action" with
  | some (.vmap a) =>
    match getKey a "__ansible_module__" with
    | some (.vstr m) => some m
    | _ => none
  | _ => none

/-- Rename a key in place (used to re-feed a normalized record with its
resolved module name as the action key). -/
def renameKey (m : AList) (old : String) (new : String) : AList :=
  m.map (fun p => if p.1 = old then (new, p.2) else p)

/-- The second component of `normalize_task` is always the stripped task,
whatever the outcome. -/
theorem normalize_task_snd (custom : List String) (task : AList)
    (filename : String) :
    (normalize_task custom task filename).2 = strip4 task := by
  unfold normalize_task strip4
  dsimp only
  split
  · rfl
  · split <;> rfl

/-- C9: `normalize_task` mutates its input mapping — after any call,
including one whose grammar parse fails (the pops precede the parse), the
caller's task mapping no longer contains `__ansible_action_type__`,
`__line__`, `__file__`, or `__ansible_action_meta__`. -/
theorem normalize_task_mutates_input (custom : List String) (task : AList)
    (filename : String) :
    hasKey (normalize_task custom task filename).2
      "__ansible_action_type__" = false ∧
    hasKey (normalize_task custom task filename).2 "__line__" = false ∧
    hasKey (normalize_task custom task filename).2 "__file__" = false ∧
    hasKey (normalize_task custom task filename).2
      "__ansible_action_meta__" = false := by
  rw [normalize_task_snd, strip4]
  refine ⟨?_, ?_, ?_, ?_⟩ <;> rw [hasKey_false_iff_getKey]
  · rw [getKey_popKey_ne _ (by decide), getKey_popKey_ne _ (by decide),
      getKey_popKey_ne _ (by decide), getKey_popKey_self]
  · rw [getKey_popKey_ne _ (by decide), getKey_popKey_ne _ (by decide),
      getKey_popKey_self]
  · rw [getKey_popKey_ne _ (by decide), getKey_popKey_self]
  · rw [getKey_popKey_self]

/-!
### Dictionary structure lemmas for the normalizer proofs
-/

/-- No duplicate keys — the invariant every genuine Python dictionary
satisfies (and every dictionary built by repeated assignment). -/
def NodupKeys (m : AList) : Prop := (keysOf m).Nodup

@[simp]
theorem keysOf_nil : keysOf [] = [] := rfl

@[simp]
theorem keysOf_cons (p : String × Val) (m : AList) :
    keysOf (p :: m) = p.1 :: keysOf m := rfl

theorem keysOf_append (a b : AList) :
    keysOf (a ++ b) = keysOf a ++ keysOf b := List.map_append _ a b

theorem hasKey_iff_mem_keys {m : AList} {q : String} :
    hasKey m q = true ↔ q ∈ keysOf m := by
  induction m with
  | nil => simp
  | cons p rest ih =>
    rw [hasKey_cons, keysOf_cons]
    by_cases hp : p.1 = q
    · subst hp
      simp
    · have hb : (p.1 == q) = false := by simp [hp]
      rw [hb]
      simp only [Bool.false_or, List.mem_cons, ih]
      constructor
      · exact Or.inr
      · rintro (rfl | h)
        · exact absurd rfl hp
        · exact h

theorem hasKey_false_iff_not_mem_keys {m : AList} {q : String} :
    hasKey m q = false ↔ q ∉ keysOf m := by
  rw [← hasKey_iff_mem_keys]
  cases hasKey m q <;> simp

theorem setKey_cons_ne {p : String × Val} {k : String} (h : p.1 ≠ k)
    (m : AList) (v : Val) : setKey (p :: m) k v = p :: setKey m k v := by
  unfold setKey
  rw [hasKey_cons]
  by_cases hm : hasKey m k <;> simp [hm, h]

theorem map_key_match_id {xs : AList} {k : String}
    (h : hasKey xs k = false) (g : String × Val → String × Val) :
    xs.map (fun p => if p.1 = k then g p else p) = xs := by
  induction xs with
  | nil => rfl
  | cons p rest ih =>
    rw [hasKey_cons] at h
    have hp : p.1 ≠ k := by
      intro hh
      simp [hh] at h
    have hr : hasKey rest k = false := by
      simpa [hp] using h
    simp [List.map, hp, ih hr]

theorem keysOf_setKey_of_has {m : AList} {k : String} (h : hasKey m k = true)
    (v : Val) : keysOf (setKey m k v) = keysOf m := by
  unfold setKey
  rw [if_pos h]
  unfold keysOf
  rw [List.map_map]
  apply List.map_congr_left
  intro p _
  by_cases hp : p.1 = k <;> simp [Function.comp, hp]

theorem mem_keys_setKey {m : AList} {k a : String} {v : Val} :
    a ∈ keysOf (setKey m k v) ↔ a ∈ keysOf m ∨ a = k := by
  by_cases h : hasKey m k = true
  · rw [keysOf_setKey_of_has h]
    constructor
    · exact Or.inl
    · rintro (ha | rfl)
      · exact ha
      · exact hasKey_iff_mem_keys.mp h
  · have hb : hasKey m k = false := by simpa using h
    rw [setKey_of_not_has hb, keysOf_append]
    simp [keysOf]

theorem nodup_setKey {m : AList} {k : String} {v : Val} (h : NodupKeys m) :
    NodupKeys (setKey m k v) := by
  by_cases hk : hasKey m k = true
  · unfold NodupKeys
    rw [keysOf_setKey_of_has hk]
    exact h
  · have hb : hasKey m k = false := by simpa using hk
    unfold NodupKeys
    rw [setKey_of_not_has hb, keysOf_append]
    simp only [keysOf, List.map_cons, List.map_nil]
    rw [List.nodup_append]
    refine ⟨h, List.nodup_singleton k, ?_⟩
    intro a ha hb'
    simp at hb'
    subst hb'
    exact (hasKey_false_iff_not_mem_keys.mp hb) ha

@[simp]
theorem updateAll_nil_args (m : AList) : updateAll m [] = m := rfl

theorem updateAll_cons_arg (m : AList) (p : String × Val) (rest : AList) :
    updateAll m (p :: rest) = updateAll (setKey m p.1 p.2) rest := rfl

theorem nodup_updateAll {m : AList} (args : AList) (h : NodupKeys m) :
    NodupKeys (updateAll m args) := by
  induction args generalizing m with
  | nil => exact h
  | cons p rest ih =>
    rw [updateAll_cons_arg]
    exact ih (nodup_setKey h)

theorem mem_keys_updateAll {m args : AList} {a : String} :
    a ∈ keysOf (updateAll m args) ↔ a ∈ keysOf m ∨ a ∈ keysOf args := by
  induction args generalizing m with
  | nil => simp
  | cons p rest ih =>
    rw [updateAll_cons_arg, ih, mem_keys_setKey]
    simp [keysOf]
    tauto

theorem hasKey_append (a b : AList) (q : String) :
    hasKey (a ++ b) q = (hasKey a q || hasKey b q) := by
  unfold hasKey
  rw [getKey_append]
  cases getKey a q <;> simp

theorem updateAll_append_disjoint {m args : AList} (hnd : NodupKeys args)
    (hdisj : ∀ q ∈ keysOf args, hasKey m q = false) :
    updateAll m args = m ++ args := by
  induction args generalizing m with
  | nil => simp
  | cons p rest ih =>
    rw [updateAll_cons_arg,
      setKey_of_not_has (hdisj p.1
        (by rw [keysOf_cons]; exact List.mem_cons_self _ _)) p.2]
    have hnd' : NodupKeys rest := by
      have := hnd
      unfold NodupKeys at this ⊢
      simp only [keysOf_cons, List.nodup_cons] at this
      exact this.2
    have hhd : p.1 ∉ keysOf rest := by
      have := hnd
      unfold NodupKeys at this
      simp only [keysOf_cons, List.nodup_cons] at this
      exact this.1
    rw [ih hnd' ?_]
    · simp
    · intro q hq
      rw [hasKey_append]
      have h1 : hasKey m q = false := hdisj q
        (by rw [keysOf_cons]; exact List.mem_cons_of_mem _ hq)
      have h2 : hasKey [(p.1, p.2)] q = false := by
        rw [hasKey_false_iff_not_mem_keys]
        simp only [keysOf_cons, keysOf_nil]
        intro hc
        simp at hc
        subst hc
        exact hhd hq
      rw [h1, h2]
      rfl

theorem updateAll_nil_of_nodup {args : AList} (h : NodupKeys args) :
    updateAll [] args = args := by
  have := updateAll_append_disjoint (m := []) h (fun q _ => rfl)
  simpa using this

theorem updateAll_cons_ne {p : String × Val} {m args : AList}
    (h : ∀ q ∈ keysOf args, q ≠ p.1) :
    updateAll (p :: m) args = p :: updateAll m args := by
  induction args generalizing m with
  | nil => simp
  | cons q rest ih =>
    rw [updateAll_cons_arg, updateAll_cons_arg,
      setKey_cons_ne (fun hc => (h q.1
        (by rw [keysOf_cons]; exact List.mem_cons_self _ _)) hc.symm)]
    exact ih (fun a ha => h a
      (by rw [keysOf_cons]; exact List.mem_cons_of_mem _ ha))

theorem setKey_middle {xs ys : AList} {k : String} {w : Val}
    (hx : hasKey xs k = false) (hy : hasKey ys k = false) (v : Val) :
    setKey (xs ++ (k, w) :: ys) k v = xs ++ (k, v) :: ys := by
  unfold setKey
  have hk : hasKey (xs ++ (k, w) :: ys) k = true := by
    rw [hasKey_append, hasKey_cons]
    simp
  rw [if_pos hk, List.map_append]
  rw [map_key_match_id hx]
  simp [map_key_match_id hy]

theorem renameKey_no_match {xs : AList} {k : String}
    (h : hasKey xs k = false) (nk : String) : renameKey xs k nk = xs :=
  map_key_match_id h _

theorem renameKey_middle {xs ys : AList} {k : String} {w : Val}
    (hx : hasKey xs k = false) (hy : hasKey ys k = false) (nk : String) :
    renameKey (xs ++ (k, w) :: ys) k nk = xs ++ (nk, w) :: ys := by
  unfold renameKey
  rw [List.map_append, map_key_match_id hx]
  simp [map_key_match_id hy]

theorem mem_keys_popKey {m : AList} {k a : String} :
    a ∈ keysOf (popKey m k) ↔ a ∈ keysOf m ∧ a ≠ k := by
  induction m with
  | nil => simp
  | cons p rest ih =>
    rw [popKey_cons]
    by_cases hp : p.1 = k
    · rw [if_pos hp, ih, keysOf_cons]
      constructor
      · rintro ⟨h1, h2⟩
        exact ⟨List.mem_cons_of_mem _ h1, h2⟩
      · rintro ⟨h1, h2⟩
        rcases List.mem_cons.mp h1 with rfl | h1
        · exact absurd hp h2
        · exact ⟨h1, h2⟩
    · rw [if_neg hp, keysOf_cons, keysOf_cons]
      simp only [List.mem_cons, ih]
      constructor
      · rintro (rfl | ⟨h1, h2⟩)
        · exact ⟨Or.inl rfl, fun hc => hp (hc ▸ rfl)⟩
        · exact ⟨Or.inr h1, h2⟩
      · rintro ⟨rfl | h1, h2⟩
        · exact Or.inl rfl
        · exact Or.inr ⟨h1, h2⟩

theorem popKey_append (a b : AList) (k : String) :
    popKey (a ++ b) k = popKey a k ++ popKey b k := List.filter_append a b

theorem mem_keys_filter_keyPred {m : AList} {pk : String → Bool}
    {a : String} :
    a ∈ keysOf (m.filter (fun p => pk p.1)) ↔
      a ∈ keysOf m ∧ pk a = true := by
  induction m with
  | nil => simp
  | cons p rest ih =>
    rw [List.filter_cons]
    by_cases hp : pk p.1 = true
    · rw [if_pos hp, keysOf_cons, keysOf_cons]
      simp only [List.mem_cons, ih]
      constructor
      · rintro (rfl | ⟨h1, h2⟩)
        · exact ⟨Or.inl rfl, hp⟩
        · exact ⟨Or.inr h1, h2⟩
      · rintro ⟨rfl | h1, h2⟩
        · exact Or.inl rfl
        · exact Or.inr ⟨h1, h2⟩
    · rw [if_neg hp, keysOf_cons, ih]
      simp only [List.mem_cons]
      constructor
      · rintro ⟨h1, h2⟩
        exact ⟨Or.inr h1, h2⟩
      · rintro ⟨rfl | h1, h2⟩
        · exact absurd h2 hp
        · exact ⟨h1, h2⟩

theorem countKey_zero_of_not_has {m : AList} {q : String}
    (h : hasKey m q = false) : countKey m q = 0 := by
  induction m with
  | nil => rfl
  | cons p rest ih =>
    rw [hasKey_cons] at h
    have hp : p.1 ≠ q := by
      intro hh
      simp [hh] at h
    have hr : hasKey rest q = false := by simpa [hp] using h
    unfold countKey at ih ⊢
    rw [List.filter_cons, if_neg (by simpa using hp)]
    exact ih hr

theorem updateAll_head2 {k1 k2 : String} (hne : k1 ≠ k2) (v1 v2 : Val)
    (args : AList) :
    ∃ x y rest, updateAll [(k1, v1), (k2, v2)] args =
        (k1, x) :: (k2, y) :: rest ∧
      hasKey rest k1 = false ∧ hasKey rest k2 = false ∧
      NodupKeys rest := by
  suffices hgen : ∀ (x y : Val) (rest : AList), hasKey rest k1 = false →
      hasKey rest k2 = false → NodupKeys rest →
      ∃ x' y' rest', updateAll ((k1, x) :: (k2, y) :: rest) args =
          (k1, x') :: (k2, y') :: rest' ∧
        hasKey rest' k1 = false ∧ hasKey rest' k2 = false ∧
        NodupKeys rest' by
    simpa using hgen v1 v2 [] rfl rfl List.nodup_nil
  induction args with
  | nil =>
    intro x y rest h1 h2 h3
    exact ⟨x, y, rest, rfl, h1, h2, h3⟩
  | cons p as ih =>
    intro x y rest h1 h2 h3
    rw [updateAll_cons_arg]
    by_cases hp1 : p.1 = k1
    · have hs : setKey ((k1, x) :: (k2, y) :: rest) p.1 p.2 =
          (k1, p.2) :: (k2, y) :: rest := by
        unfold setKey
        rw [if_pos (by rw [hp1, hasKey_cons]; simp)]
        simp only [List.map_cons, hp1]
        rw [map_key_match_id h1]
        simp [Ne.symm hne]
      rw [hs]
      exact ih p.2 y rest h1 h2 h3
    · by_cases hp2 : p.1 = k2
      · have hs : setKey ((k1, x) :: (k2, y) :: rest) p.1 p.2 =
            (k1, x) :: (k2, p.2) :: rest := by
          unfold setKey
          rw [if_pos (by rw [hp2, hasKey_cons, hasKey_cons]; simp)]
          simp only [List.map_cons, hp2]
          rw [map_key_match_id h2]
          simp [hne]
        rw [hs]
        exact ih x p.2 rest h1 h2 h3
      · rw [setKey_cons_ne (fun hc => hp1 hc.symm),
          setKey_cons_ne (fun hc => hp2 hc.symm)]
        refine ih x y (setKey rest p.1 p.2) ?_ ?_ (nodup_setKey h3)
        · rw [hasKey_false_iff_not_mem_keys] at h1 ⊢
          rw [mem_keys_setKey]
          rintro (hc | hc)
          · exact h1 hc
          · exact hp1 hc.symm
        · rw [hasKey_false_iff_not_mem_keys] at h2 ⊢
          rw [mem_keys_setKey]
          rintro (hc | hc)
          · exact h2 hc
          · exact hp2 hc.symm

/-- The fixed keys `assembleRecord` itself writes into the record. -/
def REC_FIXED_KEYS : List String :=
  ["delegate_to", "action", "__file__", "__ansible_action_type__",
   "__line__", "__ansible_action_meta__"]

theorem setKey_append_left {a b : AList} {k : String}
    (h : hasKey a k = false) (v : Val) :
    setKey (a ++ b) k v = a ++ setKey b k v := by
  by_cases hb : hasKey b k = true
  · unfold setKey
    rw [if_pos (by rw [hasKey_append, h, hb]; rfl), if_pos hb,
      List.map_append, map_key_match_id h]
  · have hb' : hasKey b k = false := by simpa using hb
    rw [setKey_of_not_has (by rw [hasKey_append, h, hb']; rfl),
      setKey_of_not_has hb', List.append_assoc]

theorem assembleRecord_closed (D : Val) {PT : AList} (A : AList)
    (F : String) (T L Fm M : Val)
    (hPT : ∀ q ∈ keysOf PT, ¬ q ∈ REC_FIXED_KEYS) :
    assembleRecord D PT A F T L Fm M =
      ("delegate_to", D) ::
      (updateAll [] PT ++
       (("action", Val.vmap A) ::
        ("__file__", if Fm.truthy then Fm else .vstr F) ::
        ("__ansible_action_type__", T) ::
        ((if L.truthy then [("__line__", L)] else []) ++
         (if M.truthy then [("__ansible_action_meta__", M)] else [])))) := by
  have hCnot : ∀ (s : String), s ∈ REC_FIXED_KEYS →
      hasKey (updateAll [] PT) s = false := by
    intro s hs
    rw [hasKey_false_iff_not_mem_keys]
    intro hc
    exact hPT s (by simpa using mem_keys_updateAll.mp hc) hs
  have h0 : updateAll [("delegate_to", D)] PT =
      ("delegate_to", D) :: (updateAll [] PT ++ []) := by
    rw [List.append_nil]
    exact updateAll_cons_ne
      (fun q hq hc => hPT q hq (by simp [hc, REC_FIXED_KEYS]))
  have hstep : ∀ (k : String) (v : Val) (rest : AList),
      k ∈ REC_FIXED_KEYS → k ≠ "delegate_to" →
      setKey (("delegate_to", D) :: (updateAll [] PT ++ rest)) k v =
        ("delegate_to", D) :: (updateAll [] PT ++ setKey rest k v) := by
    intro k v rest hk hkd
    rw [setKey_cons_ne (by simpa using fun hc => hkd hc.symm),
      setKey_append_left (hCnot k hk) v]
  unfold assembleRecord
  dsimp only
  rw [h0]
  rw [hstep "action" (.vmap A) [] (by simp [REC_FIXED_KEYS]) (by decide)]
  rw [show setKey [] "action" (.vmap A) = [("action", .vmap A)] from rfl]
  rw [hstep "__file__" (.vstr F) _ (by simp [REC_FIXED_KEYS]) (by decide)]
  rw [show setKey [("action", Val.vmap A)] "__file__" (.vstr F) =
    [("action", Val.vmap A), ("__file__", .vstr F)] by
      rw [setKey_of_not_has (by rw [hasKey_cons]; simp) _]
      rfl]
  rw [hstep "__ansible_action_type__" T _ (by simp [REC_FIXED_KEYS])
    (by decide)]
  rw [show setKey [("action", Val.vmap A), ("__file__", Val.vstr F)]
      "__ansible_action_type__" T =
    [("action", Val.vmap A), ("__file__", Val.vstr F),
     ("__ansible_action_type__", T)] by
      rw [setKey_of_not_has (by rw [hasKey_cons, hasKey_cons]; simp) _]
      rfl]
  by_cases hL : L.truthy = true
  · rw [if_pos hL,
      hstep "__line__" L _ (by simp [REC_FIXED_KEYS]) (by decide)]
    rw [show setKey [("action", Val.vmap A), ("__file__", Val.vstr F),
        ("__ansible_action_type__", T)] "__line__" L =
      [("action", Val.vmap A), ("__file__", Val.vstr F),
       ("__ansible_action_type__", T), ("__line__", L)] by
        rw [setKey_of_not_has
          (by rw [hasKey_cons, hasKey_cons, hasKey_cons]; simp) _]
        rfl]
    by_cases hFm : Fm.truthy = true
    · rw [if_pos hFm,
        hstep "__file__" Fm _ (by simp [REC_FIXED_KEYS]) (by decide)]
      rw [show setKey [("action", Val.vmap A), ("__file__", Val.vstr F),
          ("__ansible_action_type__", T), ("__line__", L)] "__file__" Fm =
        [("action", Val.vmap A), ("__file__", Fm),
         ("__ansible_action_type__", T), ("__line__", L)] by
          rw [show [("action", Val.vmap A), ("__file__", Val.vstr F),
            ("__ansible_action_type__", T), ("__line__", L)] =
            [("action", Val.vmap A)] ++ ("__file__", Val.vstr F) ::
              [("__ansible_action_type__", T), ("__line__", L)] from rfl]
          rw [setKey_middle (by rw [hasKey_cons]; simp)
            (by rw [hasKey_cons, hasKey_cons]; simp) Fm]
          rfl]
      by_cases hM : M.truthy = true
      · rw [if_pos hM,
          hstep "__ansible_action_meta__" M _ (by simp [REC_FIXED_KEYS])
            (by decide)]
        rw [setKey_of_not_has (by
          rw [hasKey_cons, hasKey_cons, hasKey_cons, hasKey_cons]
          simp) M]
        simp [hL, hFm, hM]
      · rw [if_neg hM]
        simp [hL, hFm, hM]
    · rw [if_neg hFm]
      by_cases hM : M.truthy = true
      · rw [if_pos hM,
          hstep "__ansible_action_meta__" M _ (by simp [REC_FIXED_KEYS])
            (by decide)]
        rw [setKey_of_not_has (by
          rw [hasKey_cons, hasKey_cons, hasKey_cons, hasKey_cons]
          simp) M]
        simp [hL, hFm, hM]
      · rw [if_neg hM]
        simp [hL, hFm, hM]
  · rw [if_neg hL]
    by_cases hFm : Fm.truthy = true
    · rw [if_pos hFm,
        hstep "__file__" Fm _ (by simp [REC_FIXED_KEYS]) (by decide)]
      rw [show setKey [("action", Val.vmap A), ("__file__", Val.vstr F),
          ("__ansible_action_type__", T)] "__file__" Fm =
        [("action", Val.vmap A), ("__file__", Fm),
         ("__ansible_action_type__", T)] by
          rw [show [("action", Val.vmap A), ("__file__", Val.vstr F),
            ("__ansible_action_type__", T)] =
            [("action", Val.vmap A)] ++ ("__file__", Val.vstr F) ::
              [("__ansible_action_type__", T)] from rfl]
          rw [setKey_middle (by rw [hasKey_cons]; simp)
            (by rw [hasKey_cons]; simp) Fm]
          rfl]
      by_cases hM : M.truthy = true
      · rw [if_pos hM,
          hstep "__ansible_action_meta__" M _ (by simp [REC_FIXED_KEYS])
            (by decide)]
        rw [setKey_of_not_has (by
          rw [hasKey_cons, hasKey_cons, hasKey_cons]
          simp) M]
        simp [hL, hFm, hM]
      · rw [if_neg hM]
        simp [hL, hFm, hM]
    · rw [if_neg hFm]
      by_cases hM : M.truthy = true
      · rw [if_pos hM,
          hstep "__ansible_action_meta__" M _ (by simp [REC_FIXED_KEYS])
            (by decide)]
        rw [setKey_of_not_has (by
          rw [hasKey_cons, hasKey_cons, hasKey_cons]
          simp) M]
        simp [hL, hFm, hM]
      · rw [if_neg hM]
        simp [hL, hFm, hM]

/-- The `__ansible_action_type__` the normalizer extracts (default
`"task"`). -/
def aatOf (task : AList) : Val :=
  (getKey task "__ansible_action_type__").getD (.vstr "task")

/-- The `__line__` metadata the normalizer extracts (default `None`). -/
def lineOf (task : AList) : Val := (getKey task "__line__").getD .vnull

/-- The `__file__` metadata the normalizer extracts (default `None`). -/
def fileOf (task : AList) : Val := (getKey task "__file__").getD .vnull

/-- The `__ansible_action_meta__` metadata (default the empty dict). -/
def metaOf (task : AList) : Val :=
  (getKey task "__ansible_action_meta__").getD (.vmap [])

/-- Destructor for a successful `normalize_task` run: the parse succeeded
on the stripped task, and the result is `assembleRecord` applied to the
parse pieces, with the final arguments free of `_raw_params` and
`_uses_shell`. -/
theorem normalize_task_ok_destruct {custom : List String} {task : AList}
    {filename : String} {n : AList}
    (h : (normalize_task custom task filename).1 = .ok n) :
    ∃ (po : ParseOut) (R : List Val) (args2 : AList) (action : String),
      parseModArgs custom (strip4 task) = .ok po ∧
      action = (if hasKey po.arguments "_uses_shell" = true then "shell"
                else po.action) ∧
      hasKey args2 "_raw_params" = false ∧
      hasKey args2 "_uses_shell" = false ∧
      n = assembleRecord po.delegate
        ((strip4 task).filter
          (fun p => !(RESERVED_PASS.contains p.1 || p.1 == action)))
        (buildActionDict action R args2) filename
        (aatOf task) (lineOf task) (fileOf task) (metaOf task) := by
  unfold normalize_task at h
  dsimp only at h
  rw [show popKey (popKey (popKey (popKey task "__ansible_action_type__")
      "__line__") "__file__") "__ansible_action_meta__" = strip4 task from
    rfl] at h
  rw [show popKey (popKey task "__ansible_action_type__") "__line__" =
      popKey (popKey task "__ansible_action_type__") "__line__" from rfl,
    getKey_popKey_ne _ (by decide : ("__line__" : String) ≠
      "__ansible_action_type__"),
    getKey_popKey_ne _ (by decide : ("__file__" : String) ≠ "__line__"),
    getKey_popKey_ne _ (by decide : ("__file__" : String) ≠
      "__ansible_action_type__"),
    getKey_popKey_ne _ (by decide : ("__ansible_action_meta__" : String) ≠
      "__file__"),
    getKey_popKey_ne _ (by decide : ("__ansible_action_meta__" : String) ≠
      "__line__"),
    getKey_popKey_ne _ (by decide : ("__ansible_action_meta__" : String) ≠
      "__ansible_action_type__")] at h
  cases hpo : parseModArgs custom (strip4 task) with
  | error e =>
    rw [hpo] at h
    simp at h
  | ok po =>
    rw [hpo] at h
    dsimp only at h
    cases hraw : getKey (if hasKey po.arguments "_uses_shell" = true then
        popKey po.arguments "_uses_shell" else po.arguments)
        "_raw_params" with
    | none =>
      rw [hraw] at h
      simp only [Except.ok.injEq] at h
      refine ⟨po, [],
        (if hasKey po.arguments "_uses_shell" = true then
          popKey po.arguments "_uses_shell" else po.arguments),
        (if hasKey po.arguments "_uses_shell" = true then "shell"
          else po.action), rfl, rfl, ?_, ?_, ?_⟩
      · rw [hasKey_false_iff_getKey]
        exact hraw
      · by_cases hu : hasKey po.arguments "_uses_shell" = true
        · rw [if_pos hu, hasKey_false_iff_getKey]
          exact getKey_popKey_self _ _
        · rw [if_neg hu]
          simpa using hu
      · exact h.symm
    | some v =>
      rw [hraw] at h
      cases v with
      | vstr rp =>
        simp only [Except.ok.injEq] at h
        refine ⟨po, (pySplitWs (pyStrip rp)).map Val.vstr,
          popKey (if hasKey po.arguments "_uses_shell" = true then
            popKey po.arguments "_uses_shell" else po.arguments)
            "_raw_params",
          (if hasKey po.arguments "_uses_shell" = true then "shell"
            else po.action), rfl, rfl, ?_, ?_, ?_⟩
        · rw [hasKey_false_iff_getKey]
          exact getKey_popKey_self _ _
        · rw [hasKey_false_iff_getKey,
            getKey_popKey_ne _ (by decide : ("_uses_shell" : String) ≠
              "_raw_params")]
          by_cases hu : hasKey po.arguments "_uses_shell" = true
          · rw [if_pos hu]
            exact getKey_popKey_self _ _
          · rw [if_neg hu, ← hasKey_false_iff_getKey]
            simpa using hu
        · exact h.symm
      | vnull => simp at h
      | vbool b => simp at h
      | vint i => simp at h
      | vlist l => simp at h
      | vmap mm => simp at h

theorem getKey_record_front_none {C rest : AList} {D : Val} {q : String}
    (hdt : q ≠ "delegate_to") (hC : hasKey C q = false) :
    getKey (("delegate_to", D) :: (C ++ rest)) q = getKey rest q := by
  rw [getKey_cons, if_neg (fun hc => hdt hc.symm),
    getKey_append_of_none (hasKey_false_iff_getKey.mp hC)]

/-- The pass-through filter of `normalize_task` keeps no key that
`assembleRecord` writes itself. -/
theorem passthrough_keys_not_fixed (task : AList) (action : String) :
    ∀ q ∈ keysOf ((strip4 task).filter
      (fun p => !(RESERVED_PASS.contains p.1 || p.1 == action))),
      ¬ q ∈ REC_FIXED_KEYS := by
  intro q hq hfix
  obtain ⟨hqs, hpred⟩ := (@mem_keys_filter_keyPred _
    (fun a => !(RESERVED_PASS.contains a || a == action)) _).mp hq
  fin_cases hfix
  · simp [RESERVED_PASS] at hpred
  · simp [RESERVED_PASS] at hpred
  · simp [strip4, mem_keys_popKey] at hqs
  · simp [strip4, mem_keys_popKey] at hqs
  · simp [strip4, mem_keys_popKey] at hqs
  · simp [strip4, mem_keys_popKey] at hqs

/-- C6: a successful `normalize_task` yields a record in which the
reserved bookkeeping keys are consumed: `args` and `local_action` do not
occur at all; `action` holds the constructed action mapping with exactly
one `__ansible_module__` binding; and `delegate_to` holds the grammar's
delegation result, not a value re-merged from the raw task. -/
theorem normalize_task_consumes_reserved (custom : List String)
    (task : AList) (filename : String) (n : AList)
    (h : (normalize_task custom task filename).1 = .ok n) :
    getKey n "args" = none ∧ getKey n "local_action" = none ∧
    (∃ A, getKey n "action" = some (.vmap A) ∧
      countKey A "__ansible_module__" = 1) ∧
    (∃ po : ParseOut, parseModArgs custom (strip4 task) = .ok po ∧
      getKey n "delegate_to" = some po.delegate) := by
  obtain ⟨po, R, args2, action, hpo, hact, hraw, hflag, hn⟩ :=
    normalize_task_ok_destruct h
  have hPTkeys := passthrough_keys_not_fixed task action
  rw [assembleRecord_closed po.delegate (buildActionDict action R args2)
    filename (aatOf task) (lineOf task) (fileOf task) (metaOf task)
    hPTkeys] at hn
  have hCres : ∀ s : String, RESERVED_PASS.contains s = true →
      hasKey (updateAll [] ((strip4 task).filter
        (fun p => !(RESERVED_PASS.contains p.1 || p.1 == action)))) s =
        false := by
    intro s hs
    rw [hasKey_false_iff_not_mem_keys]
    intro hc
    rcases mem_keys_updateAll.mp hc with h0 | h1
    · simp at h0
    · obtain ⟨hmem, hpred⟩ := (@mem_keys_filter_keyPred _
        (fun a => !(RESERVED_PASS.contains a || a == action)) _).mp h1
      rw [hs] at hpred
      simp at hpred
  have htail : ∀ q : String, q ≠ "__line__" →
      q ≠ "__ansible_action_meta__" →
      getKey ((if (lineOf task).truthy = true then
          [("__line__", lineOf task)] else []) ++
        (if (metaOf task).truthy = true then
          [("__ansible_action_meta__", metaOf task)] else [])) q =
        none := by
    intro q h1 h2
    by_cases hL : (lineOf task).truthy = true <;>
      by_cases hM : (metaOf task).truthy = true <;>
        simp [hL, hM, getKey_append,
          (show ¬("__line__" = q) from fun hc => h1 hc.symm),
          (show ¬("__ansible_action_meta__" = q) from fun hc => h2 hc.symm)]
  subst hn
  refine ⟨?_, ?_, ?_, po, hpo, ?_⟩
  · rw [getKey_record_front_none (by decide)
      (hCres "args" (by decide))]
    simp [htail "args" (by decide) (by decide)]
  · rw [getKey_record_front_none (by decide)
      (hCres "local_action" (by decide))]
    simp [htail "local_action" (by decide) (by decide)]
  · refine ⟨buildActionDict action R args2, ?_, ?_⟩
    · rw [getKey_record_front_none (by decide)
        (hCres "action" (by decide))]
      rw [getKey_cons]
      simp
    · obtain ⟨x, y, rest, hA, hr1, hr2, hnd⟩ :=
        @updateAll_head2 "__ansible_module__"
          "__ansible_arguments__" (by decide)
          (Val.vstr action) (Val.vlist R) args2
      unfold buildActionDict
      rw [hA]
      unfold countKey
      rw [List.filter_cons, List.filter_cons]
      have hz := countKey_zero_of_not_has hr1
      unfold countKey at hz
      rw [List.length_eq_zero] at hz
      simp [hz]
  · rw [getKey_cons]
    simp

/-- The concrete task for the C6 witness. -/
def c6task : AList := [("name", .vstr "t"), ("debug", .vstr "msg=hello")]

/-- The record produced from `c6task`. -/
def c6n : AList := ((normalize_task [] c6task "f.yml").1).toOption.getD []

/-- Witness for C6 at a concrete shorthand task. -/
theorem normalize_task_consumes_reserved_witness :
    getKey c6n "args" = none ∧ getKey c6n "local_action" = none ∧
    (∃ A, getKey c6n "action" = some (.vmap A) ∧
      countKey A "__ansible_module__" = 1) ∧
    (∃ po : ParseOut, parseModArgs [] (strip4 c6task) = .ok po ∧
      getKey c6n "delegate_to" = some po.delegate) :=
  normalize_task_consumes_reserved [] c6task "f.yml" c6n rfl

/-!
### C3: idempotence of normalization
-/

@[simp]
theorem truthy_vnull : Val.truthy Val.vnull = false := rfl

@[simp]
theorem truthy_vmap_nil : Val.truthy (Val.vmap []) = false := rfl

/-- Key names that are treated specially by the normalizer or the grammar;
a configuration that registers one of these as a custom module name would
confuse the real parser just as it would this model. -/
def FORBIDDEN_CUSTOM : List String :=
  ["action", "local_action", "args", "delegate_to",
   "__ansible_action_type__", "__line__", "__file__",
   "__ansible_action_meta__"]

theorem mem_contains {l : List String} {a : String} (h : a ∈ l) :
    l.contains a = true := by
  simpa using h

theorem contains_mem {l : List String} {a : String}
    (h : l.contains a = true) : a ∈ l := by
  induction l with
  | nil => simp [List.contains] at h
  | cons b rest ih =>
    by_cases hb : a = b
    · exact hb ▸ List.mem_cons_self _ _
    · have : rest.contains a = true := by
        simpa [List.contains, List.elem_cons, hb,
          show (b == a) = false by simpa using fun hc => hb hc.symm] using h
      exact List.mem_cons_of_mem _ (ih this)

theorem known_not_forbidden {custom : List String} {m : String}
    (h : knownAction custom m = true)
    (hc : ∀ k ∈ custom, ¬ k ∈ FORBIDDEN_CUSTOM) :
    ¬ m ∈ FORBIDDEN_CUSTOM := by
  intro hm
  rcases (by simpa [knownAction, or_assoc] using h :
      m ∈ BUILTIN_TASKS ∨ m ∈ LOADER_MODULES ∨ m ∈ custom) with
    hmem | hmem | hmem
  · fin_cases hmem <;> revert hm <;> decide
  · fin_cases hmem <;> revert hm <;> decide
  · exact hc m hmem hm

theorem not_known_of_forbidden {custom : List String} {s : String}
    (hs : s ∈ FORBIDDEN_CUSTOM)
    (hc : ∀ k ∈ custom, ¬ k ∈ FORBIDDEN_CUSTOM) :
    knownAction custom s = false := by
  unfold knownAction
  have h1 : BUILTIN_TASKS.contains s = false := by
    cases hcon : BUILTIN_TASKS.contains s with
    | false => rfl
    | true =>
      exfalso
      have hmem := contains_mem hcon
      fin_cases hmem <;> revert hs <;> decide
  have h2 : LOADER_MODULES.contains s = false := by
    cases hcon : LOADER_MODULES.contains s with
    | false => rfl
    | true =>
      exfalso
      have hmem := contains_mem hcon
      fin_cases hmem <;> revert hs <;> decide
  have h3 : custom.contains s = false := by
    cases hcon : custom.contains s with
    | false => rfl
    | true => exact absurd hs (hc s (contains_mem hcon))
  rw [h1, h2, h3]
  rfl

theorem buildActionDict_self {A Arest : AList} {x y : Val} (m : String)
    (hA : A = ("__ansible_module__", x) ::
      ("__ansible_arguments__", y) :: Arest)
    (hr1 : hasKey Arest "__ansible_module__" = false)
    (hr2 : hasKey Arest "__ansible_arguments__" = false)
    (hnd : NodupKeys Arest) :
    buildActionDict m [] A = A := by
  subst hA
  unfold buildActionDict
  rw [updateAll_cons_arg, updateAll_cons_arg]
  have h1 : setKey [("__ansible_module__", Val.vstr m),
      ("__ansible_arguments__", Val.vlist [])] "__ansible_module__" x =
      [("__ansible_module__", x), ("__ansible_arguments__", Val.vlist [])] := by
    simp [setKey, hasKey, getKey]
  have h2 : setKey [("__ansible_module__", x),
      ("__ansible_arguments__", Val.vlist [])] "__ansible_arguments__" y =
      [("__ansible_module__", x), ("__ansible_arguments__", y)] := by
    simp [setKey, hasKey, getKey]
  rw [h1, h2]
  rw [updateAll_append_disjoint hnd ?_]
  · rfl
  · intro q hq
    rw [hasKey_cons, hasKey_cons]
    have hq1 : ¬ ("__ansible_module__" = q) := by
      intro hc
      exact absurd (hasKey_iff_mem_keys.mpr (hc ▸ hq)) (by rw [hr1]; simp)
    have hq2 : ¬ ("__ansible_arguments__" = q) := by
      intro hc
      exact absurd (hasKey_iff_mem_keys.mpr (hc ▸ hq)) (by rw [hr2]; simp)
    simp [hq1, hq2]

theorem buildActionDict_no_flags (action : String) (R : List Val)
    (args2 : AList) (hraw : hasKey args2 "_raw_params" = false)
    (hflag : hasKey args2 "_uses_shell" = false) :
    hasKey (buildActionDict action R args2) "_uses_shell" = false ∧
    hasKey (buildActionDict action R args2) "_raw_params" = false := by
  constructor <;>
    · rw [hasKey_false_iff_not_mem_keys]
      intro hc
      rcases mem_keys_updateAll.mp hc with h0 | h1
      · simp [keysOf] at h0
      · first
        | exact absurd (hasKey_iff_mem_keys.mpr h1) (by rw [hflag]; simp)
        | exact absurd (hasKey_iff_mem_keys.mpr h1) (by rw [hraw]; simp)

theorem buildActionDict_nodup (action : String) (R : List Val)
    (args2 : AList) : NodupKeys (buildActionDict action R args2) := by
  apply nodup_updateAll
  simp [NodupKeys, keysOf]

/-- Re-normalizing a record in closed form: running `normalize_task` on
the record with its `action` entry renamed to the resolved module name `m`
rebuilds exactly the same record, provided the pass-through section `C` is
duplicate-free and contains no reserved, bookkeeping or action-name keys,
the action mapping `A` is a fixed point of the action-dict construction,
and `m` is a recognizable action name that is not itself a reserved
word. -/
theorem renormalize_closed
    (custom : List String) (filename : String)
    (D : Val) (C A : AList) (m : String) (T L M Ff : Val)
    (hCnd : NodupKeys C)
    (hCfix : ∀ s ∈ REC_FIXED_KEYS, hasKey C s = false)
    (hCres : ∀ k ∈ keysOf C, RESERVED_PASS.contains k = false)
    (hCnk : ∀ k ∈ keysOf C, knownAction custom k = false)
    (hAnd : NodupKeys A)
    (hAflag : hasKey A "_uses_shell" = false)
    (hAraw : hasKey A "_raw_params" = false)
    (hAself : buildActionDict m [] A = A)
    (hknown : knownAction custom m = true)
    (hmforb : ¬ m ∈ FORBIDDEN_CUSTOM)
    (hcustom : ∀ k ∈ custom, ¬ k ∈ FORBIDDEN_CUSTOM)
    (hFf : (if Ff.truthy = true then Ff else .vstr filename) = Ff) :
    (normalize_task custom
      (("delegate_to", D) :: (C ++ ((m, Val.vmap A) ::
        ("__file__", Ff) :: ("__ansible_action_type__", T) ::
        ((if L.truthy = true then [("__line__", L)] else []) ++
         (if M.truthy = true then [("__ansible_action_meta__", M)]
          else []))))) filename).1 =
    .ok (("delegate_to", D) :: (C ++ (("action", Val.vmap A) ::
      ("__file__", Ff) :: ("__ansible_action_type__", T) ::
      ((if L.truthy = true then [("__line__", L)] else []) ++
       (if M.truthy = true then [("__ansible_action_meta__", M)]
        else []))))) := by
  have hm_ne : ∀ s ∈ FORBIDDEN_CUSTOM, m ≠ s := fun s hs hc => hmforb (hc ▸ hs)
  have hma : ¬ (m = "action") := hm_ne _ (by decide)
  have hml : ¬ (m = "local_action") := hm_ne _ (by decide)
  have hmg : ¬ (m = "args") := hm_ne _ (by decide)
  have hmd : ¬ (m = "delegate_to") := hm_ne _ (by decide)
  have hmt : ¬ (m = "__ansible_action_type__") := hm_ne _ (by decide)
  have hmln : ¬ (m = "__line__") := hm_ne _ (by decide)
  have hmf : ¬ (m = "__file__") := hm_ne _ (by decide)
  have hmm : ¬ (m = "__ansible_action_meta__") := hm_ne _ (by decide)
  have hCresB : ∀ s : String, RESERVED_PASS.contains s = true →
      hasKey C s = false := by
    intro s hs
    rw [hasKey_false_iff_not_mem_keys]
    intro hcmem
    rw [hCres s hcmem] at hs
    simp at hs
  set t2 : AList := ("delegate_to", D) :: (C ++ ((m, Val.vmap A) ::
    ("__file__", Ff) :: ("__ansible_action_type__", T) ::
    ((if L.truthy = true then [("__line__", L)] else []) ++
     (if M.truthy = true then [("__ansible_action_meta__", M)]
      else [])))) with ht2
  have g1 : getKey t2 "__ansible_action_type__" = some T := by
    rw [ht2, getKey_record_front_none (by decide) (hCfix _ (by decide))]
    simp [hmt]
  have g2 : getKey t2 "__line__" =
      (if L.truthy = true then some L else none) := by
    rw [ht2, getKey_record_front_none (by decide) (hCfix _ (by decide))]
    by_cases hL : L.truthy = true <;> by_cases hM : M.truthy = true <;>
      simp [hL, hM, getKey_append, hmln]
  have g3 : getKey t2 "__file__" = some Ff := by
    rw [ht2, getKey_record_front_none (by decide) (hCfix _ (by decide))]
    simp [hmf]
  have g4 : getKey t2 "__ansible_action_meta__" =
      (if M.truthy = true then some M else none) := by
    rw [ht2, getKey_record_front_none (by decide) (hCfix _ (by decide))]
    by_cases hL : L.truthy = true <;> by_cases hM : M.truthy = true <;>
      simp [hL, hM, getKey_append, hmm]
  have g5 : popKey (popKey (popKey (popKey t2 "__ansible_action_type__")
      "__line__") "__file__") "__ansible_action_meta__" =
      ("delegate_to", D) :: (C ++ [(m, Val.vmap A)]) := by
    rw [ht2]
    by_cases hL : L.truthy = true <;> by_cases hM : M.truthy = true <;>
      simp [hL, hM, popKey_cons, popKey_append,
        popKey_of_not_has (hCfix "__ansible_action_type__" (by decide)),
        popKey_of_not_has (hCfix "__line__" (by decide)),
        popKey_of_not_has (hCfix "__file__" (by decide)),
        popKey_of_not_has (hCfix "__ansible_action_meta__" (by decide)),
        hmt, hmln, hmf, hmm]
  have hparse : parseModArgs custom
      (("delegate_to", D) :: (C ++ [(m, Val.vmap A)])) =
      shellFixup m A D := by
    have hargs : getKey (("delegate_to", D) :: (C ++ [(m, Val.vmap A)]))
        "args" = none := by
      rw [getKey_record_front_none (by decide) (hCresB "args" (by decide))]
      simp [hmg]
    have hfC : C.filter (fun p => knownAction custom p.1) = [] := by
      rw [List.filter_eq_nil]
      intro p hp
      rw [hCnk p.1 (List.mem_map_of_mem Prod.fst hp)]
      simp
    have hdk : knownAction custom "delegate_to" = false :=
      not_known_of_forbidden (by decide) hcustom
    have hfilter : (("delegate_to", D) ::
        (C ++ [(m, Val.vmap A)])).filter
          (fun p => knownAction custom p.1) = [(m, Val.vmap A)] := by
      rw [List.filter_cons, List.filter_append, hfC]
      simp [hdk, hknown]
    have hhact : hasKey (("delegate_to", D) :: (C ++ [(m, Val.vmap A)]))
        "action" = false := by
      rw [hasKey_false_iff_getKey,
        getKey_record_front_none (by decide) (hCresB "action" (by decide))]
      simp [hma]
    have hhloc : hasKey (("delegate_to", D) :: (C ++ [(m, Val.vmap A)]))
        "local_action" = false := by
      rw [hasKey_false_iff_getKey, getKey_record_front_none (by decide)
        (hCresB "local_action" (by decide))]
      simp [hml]
    have hhdel : getKey (("delegate_to", D) :: (C ++ [(m, Val.vmap A)]))
        "delegate_to" = some D := by
      rw [getKey_cons]
      simp
    unfold parseModArgs
    rw [hargs]
    dsimp only
    rw [hfilter, hhact, hhloc, hhdel]
    simp only [Bool.false_eq_true, if_false, Option.getD_some]
    dsimp only [argsOfThing, Bind.bind, Except.bind, pure, Except.pure]
    rw [updateAll_nil_of_nodup hAnd]
  have hpass : (("delegate_to", D) :: (C ++ [(m, Val.vmap A)])).filter
      (fun p => !(RESERVED_PASS.contains p.1 || p.1 == m)) = C := by
    rw [List.filter_cons, List.filter_append]
    have hfC : C.filter
        (fun p => !(RESERVED_PASS.contains p.1 || p.1 == m)) = C := by
      rw [List.filter_eq_self]
      intro p hp
      have h1 := hCres p.1 (List.mem_map_of_mem Prod.fst hp)
      have h2 : (p.1 == m) = false := by
        cases hpm : p.1 == m with
        | false => rfl
        | true =>
          exfalso
          have hpm' : p.1 = m := by simpa using hpm
          have hk := hCnk p.1 (List.mem_map_of_mem Prod.fst hp)
          rw [hpm', hknown] at hk
          simp at hk
      have h1' : p.1 ∉ RESERVED_PASS := by
        intro hmem
        rw [mem_contains hmem] at h1
        simp at h1
      simp [h1', h2]
    rw [hfC]
    simp [RESERVED_PASS]
  have hCkeysfix : ∀ q ∈ keysOf C, ¬ q ∈ REC_FIXED_KEYS := by
    intro q hq hfix
    exact absurd (hasKey_iff_mem_keys.mpr hq)
      (by rw [hCfix q hfix]; simp)
  unfold normalize_task
  dsimp only
  rw [getKey_popKey_ne _ (by decide : ("__line__" : String) ≠
      "__ansible_action_type__"),
    getKey_popKey_ne _ (by decide : ("__file__" : String) ≠ "__line__"),
    getKey_popKey_ne _ (by decide : ("__file__" : String) ≠
      "__ansible_action_type__"),
    getKey_popKey_ne _ (by decide : ("__ansible_action_meta__" : String) ≠
      "__file__"),
    getKey_popKey_ne _ (by decide : ("__ansible_action_meta__" : String) ≠
      "__line__"),
    getKey_popKey_ne _ (by decide : ("__ansible_action_meta__" : String) ≠
      "__ansible_action_type__")]
  rw [g1, g2, g3, g4, g5]
  by_cases hsh : (m == "shell") = true
  · have hm' : m = "shell" := by simpa using hsh
    subst hm'
    have hparse' : parseModArgs custom
        (("delegate_to", D) :: (C ++ [("shell", Val.vmap A)])) =
        .ok ⟨"command", setKey A "_uses_shell" (.vbool true), D⟩ := by
      rw [hparse]
      unfold shellFixup
      rw [if_pos (by simp)]
    rw [hparse']
    dsimp only
    have huse : hasKey (setKey A "_uses_shell" (.vbool true))
        "_uses_shell" = true := by
      unfold hasKey
      rw [getKey_setKey_self]
      rfl
    rw [huse]
    simp only [eq_self_iff_true, if_true]
    have hargA : popKey (setKey A "_uses_shell" (.vbool true))
        "_uses_shell" = A := by
      rw [setKey_of_not_has hAflag, popKey_append, popKey_of_not_has hAflag]
      simp [popKey]
    rw [hargA]
    rw [hasKey_false_iff_getKey.mp hAraw]
    dsimp only
    rw [hpass, hAself]
    rw [assembleRecord_closed _ _ _ _ _ _ _ hCkeysfix,
      updateAll_nil_of_nodup hCnd]
    simp only [Option.getD_some]
    rw [hFf]
    by_cases hL : L.truthy = true <;> by_cases hM : M.truthy = true <;>
      simp [hL, hM]
  · have hsh' : (m == "shell") = false := by simpa using hsh
    have hparse' : parseModArgs custom
        (("delegate_to", D) :: (C ++ [(m, Val.vmap A)])) =
        .ok ⟨m, A, D⟩ := by
      rw [hparse]
      unfold shellFixup
      rw [if_neg (by simp [hsh'])]
    rw [hparse']
    dsimp only
    rw [hAflag]
    simp only [Bool.false_eq_true, if_false]
    rw [hasKey_false_iff_getKey.mp hAraw]
    dsimp only
    rw [hpass, hAself]
    rw [assembleRecord_closed _ _ _ _ _ _ _ hCkeysfix,
      updateAll_nil_of_nodup hCnd]
    simp only [Option.getD_some]
    rw [hFf]
    by_cases hL : L.truthy = true <;> by_cases hM : M.truthy = true <;>
      simp [hL, hM]

/-- C3 (amended): `normalize_task` is idempotent on well-behaved records —
for every raw task whose normalization succeeds, re-normalizing the
resulting record with its resolved module name re-fed as the action key
yields the identical record, provided the resolved module name is a
recognizable action name, no pass-through field of the record is itself a
recognizable action name, and the configured custom modules do not shadow
the normalizer's reserved key names.  (Without the provisos the statement
fails: see the counterexample, where the record's module name is
overridden by an `__ansible_module__` argument entry naming an unknown
module.) -/
theorem normalize_task_idempotent (custom : List String) (task : AList)
    (filename : String) (n : AList) (m : String)
    (hrun : (normalize_task custom task filename).1 = .ok n)
    (hm : recordModule n = some m)
    (hknown : knownAction custom m = true)
    (hpt : ∀ k ∈ keysOf n, ¬ k ∈ REC_FIXED_KEYS →
      knownAction custom k = false)
    (hcustom : ∀ k ∈ custom, ¬ k ∈ FORBIDDEN_CUSTOM) :
    (normalize_task custom (renameKey n "action" m) filename).1 = .ok n := by
  obtain ⟨po, R, args2, action, hpo, hact, hraw, hflag, hn⟩ :=
    normalize_task_ok_destruct hrun
  have hPTfix := passthrough_keys_not_fixed task action
  rw [assembleRecord_closed po.delegate (buildActionDict action R args2)
    filename (aatOf task) (lineOf task) (fileOf task) (metaOf task)
    hPTfix] at hn
  set PT : AList := (strip4 task).filter
    (fun p => !(RESERVED_PASS.contains p.1 || p.1 == action)) with hPTdef
  set C : AList := updateAll [] PT with hCdef
  set Ad : AList := buildActionDict action R args2 with hAd
  have hCnd : NodupKeys C := nodup_updateAll _ (by simp [NodupKeys])
  have hCfix : ∀ s ∈ REC_FIXED_KEYS, hasKey C s = false := by
    intro s hs
    rw [hasKey_false_iff_not_mem_keys]
    intro hc
    rcases mem_keys_updateAll.mp hc with h0 | h1
    · simp at h0
    · exact hPTfix s h1 hs
  have hCmemPT : ∀ k ∈ keysOf C,
      k ∈ keysOf (strip4 task) ∧
        (!(RESERVED_PASS.contains k || k == action)) = true := by
    intro k hk
    rcases mem_keys_updateAll.mp hk with h0 | h1
    · simp at h0
    · exact (@mem_keys_filter_keyPred _
        (fun a => !(RESERVED_PASS.contains a || a == action)) _).mp h1
  have hCres : ∀ k ∈ keysOf C, RESERVED_PASS.contains k = false := by
    intro k hk
    have h2 := (hCmemPT k hk).2
    cases hcon : RESERVED_PASS.contains k with
    | false => rfl
    | true =>
      rw [hcon] at h2
      simp at h2
  have hCnk : ∀ k ∈ keysOf C, knownAction custom k = false := by
    intro k hk
    apply hpt
    · rw [hn, keysOf_cons]
      apply List.mem_cons_of_mem
      rw [keysOf_append]
      exact List.mem_append_left _ hk
    · intro hfix
      have hkPT : k ∈ keysOf PT := by
        rcases mem_keys_updateAll.mp hk with h0 | h1
        · simp at h0
        · exact h1
      exact hPTfix k hkPT hfix
  have hAnod : NodupKeys Ad := buildActionDict_nodup action R args2
  have hAflags := buildActionDict_no_flags action R args2 hraw hflag
  obtain ⟨x, y, Arest, hAeq0, hr1, hr2, hrnd⟩ :=
    @updateAll_head2 "__ansible_module__"
      "__ansible_arguments__" (by decide)
      (Val.vstr action) (Val.vlist R) args2
  have hAeq : Ad = ("__ansible_module__", x) ::
      ("__ansible_arguments__", y) :: Arest := hAeq0
  have hgact : getKey n "action" = some (.vmap Ad) := by
    rw [hn, getKey_record_front_none (by decide)
      (hCfix "action" (by decide))]
    simp
  have hxm : x = .vstr m := by
    unfold recordModule at hm
    rw [hgact] at hm
    dsimp only at hm
    have hgm : getKey Ad "__ansible_module__" = some x := by
      rw [hAeq, getKey_cons]
      simp
    rw [hgm] at hm
    cases x with
    | vstr s =>
      simp at hm
      rw [hm]
    | vnull => simp at hm
    | vbool b => simp at hm
    | vint i => simp at hm
    | vlist l => simp at hm
    | vmap mm => simp at hm
  have hAself : buildActionDict m [] Ad = Ad :=
    buildActionDict_self m (by rw [hAeq, hxm]) hr1 hr2 hrnd
  have hmforb := known_not_forbidden hknown hcustom
  have hFfcoh : (if (if (fileOf task).truthy = true then fileOf task
      else Val.vstr filename).truthy = true then
      (if (fileOf task).truthy = true then fileOf task
        else Val.vstr filename)
      else Val.vstr filename) =
      (if (fileOf task).truthy = true then fileOf task
        else Val.vstr filename) := by
    by_cases hf : (fileOf task).truthy = true
    · simp [hf]
    · simp [hf]
  have hren : renameKey n "action" m =
      ("delegate_to", po.delegate) :: (C ++ ((m, Val.vmap Ad) ::
        ("__file__", if (fileOf task).truthy = true then fileOf task
          else Val.vstr filename) ::
        ("__ansible_action_type__", aatOf task) ::
        ((if (lineOf task).truthy = true then [("__line__", lineOf task)]
          else []) ++
         (if (metaOf task).truthy = true then
          [("__ansible_action_meta__", metaOf task)] else [])))) := by
    rw [hn]
    rw [show ("delegate_to", po.delegate) :: (C ++ (("action", Val.vmap Ad) ::
        ("__file__", if (fileOf task).truthy = true then fileOf task
          else Val.vstr filename) ::
        ("__ansible_action_type__", aatOf task) ::
        ((if (lineOf task).truthy = true then [("__line__", lineOf task)]
          else []) ++
         (if (metaOf task).truthy = true then
          [("__ansible_action_meta__", metaOf task)] else [])))) =
      (("delegate_to", po.delegate) :: C) ++ (("action", Val.vmap Ad) ::
        (("__file__", if (fileOf task).truthy = true then fileOf task
          else Val.vstr filename) ::
        ("__ansible_action_type__", aatOf task) ::
        ((if (lineOf task).truthy = true then [("__line__", lineOf task)]
          else []) ++
         (if (metaOf task).truthy = true then
          [("__ansible_action_meta__", metaOf task)] else [])))) from by
      simp]
    rw [renameKey_middle ?hx ?hy]
    · simp
    case hx =>
      rw [hasKey_cons, hCfix "action" (by decide)]
      simp
    case hy =>
      rw [hasKey_cons, hasKey_cons]
      have htl : hasKey ((if (lineOf task).truthy = true then
          [("__line__", lineOf task)] else []) ++
          (if (metaOf task).truthy = true then
          [("__ansible_action_meta__", metaOf task)] else []))
          "action" = false := by
        by_cases hL : (lineOf task).truthy = true <;>
          by_cases hM : (metaOf task).truthy = true <;>
            simp [hL, hM, hasKey_append, hasKey_cons]
      rw [htl]
      simp
  rw [hren, hn]
  exact renormalize_closed custom filename po.delegate C Ad m
    (aatOf task) (lineOf task) (metaOf task)
    (if (fileOf task).truthy = true then fileOf task
      else Val.vstr filename)
    hCnd hCfix hCres hCnk hAnod hAflags.1 hAflags.2 hAself hknown hmforb
    hcustom hFfcoh

/-- A well-behaved raw task used to exercise the idempotence theorem. -/
def c3task : AList := [("name", .vstr "x"), ("debug", .vstr "msg=hello")]

/-- The record `normalize_task` produces for `c3task`. -/
def c3n : AList :=
  [("delegate_to", .vnull), ("name", .vstr "x"),
   ("action", .vmap [("__ansible_module__", .vstr "debug"),
     ("__ansible_arguments__", .vlist []), ("msg", .vstr "hello")]),
   ("__file__", .vstr "f.yml"), ("__ansible_action_type__", .vstr "task")]

theorem normalize_task_idempotent_witness :
    (normalize_task [] c3task "f.yml").1 = .ok c3n ∧
    recordModule c3n = some "debug" ∧
    (normalize_task [] (renameKey c3n "action" "debug") "f.yml").1 =
      .ok c3n :=
  ⟨rfl, rfl,
    normalize_task_idempotent [] c3task "f.yml" c3n "debug" rfl rfl
      (by decide) (by decide) (by decide)⟩

/-- A raw task whose argument dictionary smuggles in an
`__ansible_module__` entry naming a module unknown to the grammar. -/
def c3bad : AList :=
  [("debug", .vmap [("__ansible_module__", .vstr "not_a_module")])]

/-- The record `normalize_task` produces for `c3bad`: its action mapping's
module field is the smuggled unknown name, overriding `debug`. -/
def c3badn : AList :=
  [("delegate_to", .vnull),
   ("action", .vmap [("__ansible_module__", .vstr "not_a_module"),
     ("__ansible_arguments__", .vlist [])]),
   ("__file__", .vstr "f.yml"), ("__ansible_action_type__", .vstr "task")]

/-- C3 counterexample to unconditional idempotence: normalizing `c3bad`
succeeds and yields the record `c3badn` whose resolved module name is
"not_a_module", but re-feeding that record with its module name as the
action key makes `normalize_task` fail (no recognizable action), so the
second normalization does not reproduce the first record. -/
theorem normalize_task_not_idempotent_counterexample :
    (normalize_task [] c3bad "f.yml").1 = .ok c3badn ∧
    recordModule c3badn = some "not_a_module" ∧
    exOk (normalize_task []
      (renameKey c3badn "action" "not_a_module") "f.yml").1 = false :=
  ⟨rfl, rfl, rfl⟩

end AnsibleLater
